import Mathlib

/-!
Verification of the pyeep repository core against its specification.

Shallow embedding conventions:
* Python unbounded `int` is modelled as `Int` (frame counters, delays,
  MIDI values); list/deque state is modelled as `List`.
* Python `float` arithmetic is modelled exactly over `Rat`: the claims under
  study are about exact values of the precomputed envelope curves, and the
  reference tests compare full-precision values, so exact arithmetic is the
  intended semantics.  The transcendental `math.sin` used by the sine voice is
  a parameter of the model (`sinFn`), universally quantified in theorems.
* Mutating methods become functions from state to state; methods that can
  raise become `Except`/`Option` valued functions.
-/

namespace Deltalist

/-- Embeds `pyeep.deltalist.Event`: `frame_delay` is the mutable delay field,
`payload` stands for the identity/payload of the event object, which
`DeltaList` never touches. -/
structure DEvent where
  frame_delay : Int
  payload : Nat
deriving DecidableEq, Repr

/-- Embeds `DeltaList.add_event`: linear scan from the head; while the new
event's remaining delay is not smaller than the scanned event's delta the new
event's delay is decremented and the scan moves on; at the insertion point the
next event's delta is decremented by the new event's remaining delay. -/
def add_event : List DEvent → DEvent → List DEvent
  | [], e => [e]
  | evt :: rest, e =>
    if e.frame_delay < evt.frame_delay then
      e :: { evt with frame_delay := evt.frame_delay - e.frame_delay } :: rest
    else
      evt :: add_event rest { e with frame_delay := e.frame_delay - evt.frame_delay }

/-- Embeds the body of the `while` loop of `DeltaList.clock_tick`: `res` is
the (reversed) accumulator of already-popped events, whose head carries the
absolute delay of the last popped event (`res[-1].frame_delay` in the code). -/
def clock_tick_loop (frames : Int) (events : List DEvent) (res : List DEvent) :
    List DEvent × List DEvent :=
  match events with
  | [] => (res.reverse, [])
  | evt :: rest =>
    if evt.frame_delay < frames then
      let evtAbs : DEvent :=
        match res with
        | [] => evt
        | last :: _ => { evt with frame_delay := evt.frame_delay + last.frame_delay }
      clock_tick_loop (frames - evt.frame_delay) rest (evtAbs :: res)
    else
      (res.reverse, { evt with frame_delay := evt.frame_delay - frames } :: rest)

/-- Embeds `DeltaList.clock_tick`: returns the popped events (with
`frame_delay` rewritten to the absolute delay from the start of the tick) and
the remaining queue (head delta decremented by the remaining frames). -/
def clock_tick (frames : Int) (events : List DEvent) : List DEvent × List DEvent :=
  clock_tick_loop frames events []

/-- Shift every delay in a list by `d` (helper for the absolute-delay view). -/
def shiftd (d : Int) (l : List DEvent) : List DEvent :=
  l.map fun e => { e with frame_delay := e.frame_delay + d }

/-- Absolute-delay view of a delta list: the `i`-th entry carries the sum of
the deltas from the head up to and including position `i`. -/
def toAbs : List DEvent → List DEvent
  | [] => []
  | e :: rest => e :: shiftd e.frame_delay (toAbs rest)

/-- Insertion into the absolute-delay view: before the first strictly greater
absolute delay (hence after all smaller-or-equal ones). -/
def insertAbs (e : DEvent) : List DEvent → List DEvent
  | [] => [e]
  | a :: rest =>
    if e.frame_delay < a.frame_delay then e :: a :: rest else a :: insertAbs e rest

theorem shiftd_nil (d : Int) : shiftd d [] = [] := rfl

theorem shiftd_cons (d : Int) (e : DEvent) (l : List DEvent) :
    shiftd d (e :: l) = { e with frame_delay := e.frame_delay + d } :: shiftd d l := rfl

theorem shiftd_shiftd (a b : Int) (l : List DEvent) :
    shiftd a (shiftd b l) = shiftd (b + a) l := by
  induction l with
  | nil => rfl
  | cons e t ih =>
      simp [shiftd_cons, ih, add_assoc]

theorem shiftd_zero (l : List DEvent) : shiftd 0 l = l := by
  induction l with
  | nil => rfl
  | cons e t ih => simp [shiftd_cons, ih]

theorem shiftd_insertAbs (d : Int) (e : DEvent) (m : List DEvent) :
    shiftd d (insertAbs { e with frame_delay := e.frame_delay - d } m) =
      insertAbs e (shiftd d m) := by
  induction m with
  | nil => simp [insertAbs, shiftd]
  | cons a t ih =>
      by_cases h : e.frame_delay < a.frame_delay + d
      · have h2 : e.frame_delay - d < a.frame_delay := by omega
        simp [insertAbs, shiftd_cons, h, h2, sub_add_cancel, shiftd]
      · have h2 : ¬ e.frame_delay - d < a.frame_delay := by omega
        simp only [shiftd_cons, insertAbs, if_neg h, if_neg h2, List.cons.injEq, true_and]
        simpa [shiftd] using ih

/-- Abstraction of `add_event` to the absolute-delay view: adding an event
carrying `frame_delay = d` inserts it at absolute delay `d` (this is the
delta-encoding invariant: the sum of deltas up to the event at insertion time
is the delay it was added with). -/
theorem toAbs_add_event (l : List DEvent) (e : DEvent) :
    toAbs (add_event l e) = insertAbs e (toAbs l) := by
  induction l generalizing e with
  | nil => rfl
  | cons evt rest ih =>
      by_cases h : e.frame_delay < evt.frame_delay
      · simp [add_event, h, toAbs, insertAbs, shiftd_cons, shiftd_shiftd, sub_add_cancel]
      · simp [add_event, h, toAbs, insertAbs, ih, shiftd_insertAbs]

/-- Structural version of the `clock_tick` loop: pops the prefix of events
whose delta is smaller than the remaining frame budget, rewriting the popped
delays to absolute delays from the start of the tick. -/
def tick_rec (frames : Int) : List DEvent → List DEvent × List DEvent
  | [] => ([], [])
  | evt :: rest =>
    if evt.frame_delay < frames then
      let p := tick_rec (frames - evt.frame_delay) rest
      (evt :: shiftd evt.frame_delay p.1, p.2)
    else
      ([], { evt with frame_delay := evt.frame_delay - frames } :: rest)

/-- Delay carried by the head of the accumulator (`res[-1].frame_delay` in the
source, `0` when the accumulator is empty). -/
def headDelay : List DEvent → Int
  | [] => 0
  | last :: _ => last.frame_delay

theorem clock_tick_loop_eq (events : List DEvent) :
    ∀ (frames : Int) (res : List DEvent),
      clock_tick_loop frames events res =
        (res.reverse ++ shiftd (headDelay res) (tick_rec frames events).1,
         (tick_rec frames events).2) := by
  induction events with
  | nil => intro frames res; simp [clock_tick_loop, tick_rec, shiftd]
  | cons evt rest ih =>
      intro frames res
      by_cases h : evt.frame_delay < frames
      · have hres : headDelay
            ({ evt with frame_delay := evt.frame_delay + headDelay res } :: res) =
            evt.frame_delay + headDelay res := rfl
        have hstep : clock_tick_loop frames (evt :: rest) res =
            clock_tick_loop (frames - evt.frame_delay) rest
              ({ evt with frame_delay := evt.frame_delay + headDelay res } :: res) := by
          cases res with
          | nil =>
              simp [clock_tick_loop, h, headDelay]
          | cons last tl =>
              simp [clock_tick_loop, h, headDelay]
        rw [hstep, ih]
        simp only [tick_rec, if_pos h, hres]
        simp [shiftd_cons, shiftd_shiftd]
      · simp [clock_tick_loop, tick_rec, h, shiftd]

theorem clock_tick_eq_tick_rec (frames : Int) (l : List DEvent) :
    clock_tick frames l = tick_rec frames l := by
  rw [clock_tick, clock_tick_loop_eq]
  simp [headDelay, shiftd_zero]

theorem takeWhile_shiftd (d n : Int) (m : List DEvent) :
    (shiftd d m).takeWhile (fun a => a.frame_delay < n) =
      shiftd d (m.takeWhile (fun a => a.frame_delay < n - d)) := by
  induction m with
  | nil => rfl
  | cons a t ih =>
      by_cases h : a.frame_delay + d < n
      · have h2 : a.frame_delay < n - d := by omega
        simp [shiftd_cons, List.takeWhile_cons, h, h2, ih]
      · have h2 : ¬ a.frame_delay < n - d := by omega
        simp [shiftd_cons, List.takeWhile_cons, h, h2, shiftd_nil]

theorem dropWhile_shiftd (d n : Int) (m : List DEvent) :
    (shiftd d m).dropWhile (fun a => a.frame_delay < n) =
      shiftd d (m.dropWhile (fun a => a.frame_delay < n - d)) := by
  induction m with
  | nil => rfl
  | cons a t ih =>
      by_cases h : a.frame_delay + d < n
      · have h2 : a.frame_delay < n - d := by omega
        simp [shiftd_cons, List.dropWhile_cons, h, h2, ih]
      · have h2 : ¬ a.frame_delay < n - d := by omega
        simp [shiftd_cons, List.dropWhile_cons, h, h2]

/-- The events popped by `clock_tick n` are exactly the longest prefix of the
absolute-delay view whose absolute delays are `< n`, already expressed as
absolute delays. -/
theorem tick_rec_fst (frames : Int) (l : List DEvent) :
    (tick_rec frames l).1 = (toAbs l).takeWhile (fun a => a.frame_delay < frames) := by
  induction l generalizing frames with
  | nil => rfl
  | cons evt rest ih =>
      by_cases h : evt.frame_delay < frames
      · simp only [tick_rec, if_pos h, toAbs, List.takeWhile_cons, decide_eq_true_eq, h,
          if_pos, takeWhile_shiftd, ih]
      · simp [tick_rec, toAbs, List.takeWhile_cons, h]

/-- The absolute-delay view of the events left by `clock_tick n`: the suffix
past the popped prefix, with every absolute delay reduced by exactly `n`. -/
theorem tick_rec_snd (frames : Int) (l : List DEvent) :
    toAbs (tick_rec frames l).2 =
      ((toAbs l).dropWhile (fun a => a.frame_delay < frames)).map
        (fun a => { a with frame_delay := a.frame_delay - frames }) := by
  induction l generalizing frames with
  | nil => rfl
  | cons evt rest ih =>
      by_cases h : evt.frame_delay < frames
      · rw [show tick_rec frames (evt :: rest) =
              ((tick_rec frames (evt :: rest)).1, (tick_rec (frames - evt.frame_delay) rest).2)
            from by simp [tick_rec, if_pos h]]
        rw [show toAbs (evt :: rest) = evt :: shiftd evt.frame_delay (toAbs rest) from rfl]
        rw [List.dropWhile_cons]
        simp only [decide_eq_true_eq, h, if_pos, dropWhile_shiftd]
        rw [ih]
        simp [shiftd, List.map_map, Function.comp]
        intro a _
        omega
      · simp only [tick_rec, if_neg h, toAbs]
        rw [List.dropWhile_cons]
        simp only [decide_eq_true_eq, h, if_neg, not_false_iff]
        simp [shiftd, List.map_map, Function.comp]
        intro a _
        omega

/-- Ordering of events by (absolute) delay. -/
def dle (a b : DEvent) : Prop := a.frame_delay ≤ b.frame_delay

instance : DecidableRel dle := fun a b => inferInstanceAs (Decidable (_ ≤ _))

theorem insertAbs_perm (e : DEvent) (m : List DEvent) :
    (insertAbs e m).Perm (e :: m) := by
  induction m with
  | nil => simp [insertAbs]
  | cons a t ih =>
      by_cases h : e.frame_delay < a.frame_delay
      · simp [insertAbs, h]
      · simp only [insertAbs, if_neg h]
        exact (ih.cons a).trans (List.Perm.swap e a t)

theorem sorted_insertAbs (e : DEvent) (m : List DEvent) (hm : List.Sorted dle m) :
    List.Sorted dle (insertAbs e m) := by
  induction m with
  | nil => simp [insertAbs, List.Sorted]
  | cons a t ih =>
      rw [List.sorted_cons] at hm
      obtain ⟨ha, ht⟩ := hm
      by_cases h : e.frame_delay < a.frame_delay
      · rw [insertAbs, if_pos h, List.sorted_cons]
        refine ⟨?_, ?_⟩
        · intro b hb
          rcases List.mem_cons.mp hb with hb | hb
          · subst hb; exact le_of_lt h
          · exact le_trans (le_of_lt h) (ha b hb)
        · exact List.sorted_cons.mpr ⟨ha, ht⟩
      · rw [insertAbs, if_neg h, List.sorted_cons]
        refine ⟨?_, ih ht⟩
        intro b hb
        have hb2 : b ∈ e :: t := (insertAbs_perm e t).mem_iff.mp hb
        rcases List.mem_cons.mp hb2 with hb2 | hb2
        · subst hb2; exact le_of_not_lt h
        · exact ha b hb2

/-- A `DeltaList` built from scratch by a sequence of `add_event` calls. -/
def build (inserts : List DEvent) : List DEvent :=
  inserts.foldl add_event []

theorem toAbs_build_aux (xs : List DEvent) :
    ∀ l : List DEvent,
      toAbs (xs.foldl add_event l) = xs.foldl (fun m e => insertAbs e m) (toAbs l) := by
  induction xs with
  | nil => intro l; rfl
  | cons x t ih =>
      intro l
      simp only [List.foldl_cons, ih, toAbs_add_event]

theorem toAbs_build (xs : List DEvent) :
    toAbs (build xs) = xs.foldl (fun m e => insertAbs e m) [] :=
  toAbs_build_aux xs []

theorem foldl_insertAbs_perm (xs : List DEvent) :
    ∀ m : List DEvent, (xs.foldl (fun m e => insertAbs e m) m).Perm (xs ++ m) := by
  induction xs with
  | nil => intro m; simp
  | cons x t ih =>
      intro m
      have h1 := ih (insertAbs x m)
      have h2 : (t ++ insertAbs x m).Perm (t ++ (x :: m)) :=
        List.Perm.append_left t (insertAbs_perm x m)
      have h3 : (t ++ (x :: m)).Perm (x :: (t ++ m)) := List.perm_middle
      simpa using h1.trans (h2.trans h3)

theorem foldl_insertAbs_sorted (xs : List DEvent) :
    ∀ m : List DEvent, List.Sorted dle m →
      List.Sorted dle (xs.foldl (fun m e => insertAbs e m) m) := by
  induction xs with
  | nil => intro m hm; exact hm
  | cons x t ih =>
      intro m hm
      exact ih (insertAbs x m) (sorted_insertAbs x m hm)

theorem sorted_takeWhile_eq_filter (n : Int) (l : List DEvent)
    (hl : List.Sorted dle l) :
    l.takeWhile (fun a => a.frame_delay < n) = l.filter (fun a => a.frame_delay < n) ∧
    l.dropWhile (fun a => a.frame_delay < n) = l.filter (fun a => n ≤ a.frame_delay) := by
  induction l with
  | nil => simp
  | cons a t ih =>
      rw [List.sorted_cons] at hl
      obtain ⟨ha, ht⟩ := hl
      obtain ⟨ih1, ih2⟩ := ih ht
      by_cases h : a.frame_delay < n
      · have h2 : ¬ n ≤ a.frame_delay := by omega
        simp [List.takeWhile_cons, List.dropWhile_cons, List.filter_cons, h, h2, ih1, ih2]
      · have h2 : n ≤ a.frame_delay := by omega
        refine ⟨?_, ?_⟩
        · have hfil : t.filter (fun a => decide (a.frame_delay < n)) = [] := by
            apply List.filter_eq_nil.mpr
            intro b hb
            have := ha b hb
            simp only [dle] at this
            simp only [decide_eq_true_eq]
            omega
          simp [List.takeWhile_cons, List.filter_cons, h, hfil]
        · have hfil : t.filter (fun a => decide (n ≤ a.frame_delay)) = t := by
            apply List.filter_eq_self.mpr
            intro b hb
            have := ha b hb
            simp only [dle] at this
            simp only [decide_eq_true_eq]
            omega
          simp [List.dropWhile_cons, List.filter_cons, h, h2, hfil]

/-- C1 (DeltaList event extraction): for any sequence of `add_event` calls
(each event carrying a relative `frame_delay`, recorded in `inserts` together
with its insertion-time delay, which by `toAbs_add_event` is the event's
original absolute delay) followed by a single `clock_tick n`, the returned
list contains exactly the events whose original absolute delay is strictly
less than `n` (payloads untouched, delays rewritten to the absolute delay),
in ascending absolute-delay order, and the absolute delays of the remaining
events are each reduced by exactly `n` (the delta-encoding invariant is
preserved, `toAbs` being the decoding of the delta representation). -/
theorem deltalist_clock_tick_extraction (inserts : List DEvent) (n : Int) :
    ((clock_tick n (build inserts)).1).Perm
        (inserts.filter (fun e => e.frame_delay < n)) ∧
    List.Sorted dle (clock_tick n (build inserts)).1 ∧
    (toAbs (clock_tick n (build inserts)).2).Perm
        ((inserts.filter (fun e => n ≤ e.frame_delay)).map
          (fun e => { e with frame_delay := e.frame_delay - n })) := by
  have habs : toAbs (build inserts) = inserts.foldl (fun m e => insertAbs e m) [] :=
    toAbs_build inserts
  have hsorted : List.Sorted dle (toAbs (build inserts)) := by
    rw [habs]
    exact foldl_insertAbs_sorted inserts [] (by simp [List.Sorted])
  have hperm : (toAbs (build inserts)).Perm inserts := by
    rw [habs]
    simpa using foldl_insertAbs_perm inserts []
  obtain ⟨htake, hdrop⟩ := sorted_takeWhile_eq_filter n _ hsorted
  have h1 : (clock_tick n (build inserts)).1 =
      (toAbs (build inserts)).takeWhile (fun a => a.frame_delay < n) := by
    rw [clock_tick_eq_tick_rec, tick_rec_fst]
  have h2 : toAbs (clock_tick n (build inserts)).2 =
      ((toAbs (build inserts)).dropWhile (fun a => a.frame_delay < n)).map
        (fun a => { a with frame_delay := a.frame_delay - n }) := by
    rw [clock_tick_eq_tick_rec, tick_rec_snd]
  refine ⟨?_, ?_, ?_⟩
  · rw [h1, htake]
    exact hperm.filter _
  · rw [h1]
    exact hsorted.sublist (List.takeWhile_sublist _)
  · rw [h2, hdrop]
    exact (hperm.filter _).map _

/-- C7 counterexample: with one queued event at absolute delay 5 (payload 0),
adding a second event with equal delay 5 (payload 1) places the new event
AFTER the existing equal-delay event, not before it as the claim states: the
claimed placement would be the delta list `[⟨5,1⟩, ⟨0,0⟩]`. -/
theorem add_event_tie_break_counterexample :
    add_event [⟨5, 0⟩] ⟨5, 1⟩ = [⟨5, 0⟩, ⟨0, 1⟩] ∧
    toAbs (add_event [⟨5, 0⟩] ⟨5, 1⟩) = [⟨5, 0⟩, ⟨5, 1⟩] ∧
    add_event [⟨5, 0⟩] ⟨5, 1⟩ ≠ [⟨5, 1⟩, ⟨0, 0⟩] := by
  refine ⟨?_, ?_, ?_⟩ <;> decide

/-- C7 amended (DeltaList insertion tie-break): `add_event` keeps FIFO order
for equal delays by inserting the new event after every existing event whose
absolute delay is smaller than OR EQUAL TO the new event's delay, and before
the first existing event with strictly greater absolute delay (stated on the
absolute-delay view of the queue). -/
theorem add_event_inserts_after_equal_delays (l : List DEvent) (e : DEvent) :
    toAbs (add_event l e) =
      (toAbs l).takeWhile (fun a => a.frame_delay ≤ e.frame_delay) ++
        e :: (toAbs l).dropWhile (fun a => a.frame_delay ≤ e.frame_delay) := by
  rw [toAbs_add_event]
  generalize toAbs l = m
  induction m with
  | nil => rfl
  | cons a t ih =>
      by_cases h : e.frame_delay < a.frame_delay
      · have h2 : ¬ a.frame_delay ≤ e.frame_delay := by omega
        simp [insertAbs, List.takeWhile_cons, List.dropWhile_cons, h, h2]
      · have h2 : a.frame_delay ≤ e.frame_delay := by omega
        simp [insertAbs, List.takeWhile_cons, List.dropWhile_cons, h, h2, ih]

end Deltalist

namespace Messages

/-- Embeds a `pyeep` component as far as message serialization is concerned:
only its `name` is ever read by `Message.as_jsonable`. -/
structure PyComponent where
  name : String
deriving DecidableEq, Repr

/-- Value held by the untyped `src` field of a `Message`: `None`, a live
`Component` object, or (after decoding) the plain name string that was on the
wire, stored as-is by `Message.__init__`. -/
inductive Src
  | none
  | comp (c : PyComponent)
  | str (s : String)
deriving DecidableEq, Repr

/-- Common `Message.__init__` state: `ts`, `src`, `dst`, `name`.  Python
floats are modelled as exact rationals. -/
structure MsgBase where
  ts : Option Rat
  src : Src
  dst : Option String
  name : String
deriving DecidableEq, Repr

/-- Kind-specific constructor fields of the message classes under
`pyeep/messages/`.  `Configure.config` is an arbitrary JSON object, modelled
as a key-value list; `SetGroupPower.power`/`IncreaseGroupPower.amount` are
modelled in their plain-float form (`PowerAnimation` payloads belong to the
out-of-scope animation subsystem). -/
inductive MsgPayload
  | message
  | shutdown
  | newComponent
  | componentActiveStateChanged (value : Bool)
  | deviceScanRequest (duration : Rat)
  | configSaveRequest
  | configure (config : List (String × String))
  | emergencyStop
  | shortcut (command : String)
  | pause (group : Int)
  | resume (group : Int)
  | setRate (rate : Rat)
  | setPower (power : Rat)
  | setGroupPower (group : Int) (power : Rat)
  | increaseGroupPower (group : Int) (amount : Rat)
deriving DecidableEq, Repr

/-- A message object: common fields plus the kind-specific payload. -/
structure Msg where
  base : MsgBase
  payload : MsgPayload
deriving DecidableEq, Repr

/-- The JSON object put on the wire, as a flat record of the possible keys:
`__module__`/`__class__` (`module`/`cls` here), the common fields, and the
kind-specific keys, `Option`-valued because a given message class only emits
its own keys. -/
structure Wire where
  module : String
  cls : String
  ts : Option Rat
  src : Option String
  dst : Option String
  name : String
  value : Option Bool := Option.none
  duration : Option Rat := Option.none
  config : Option (List (String × String)) := Option.none
  command : Option String := Option.none
  group : Option Int := Option.none
  rate : Option Rat := Option.none
  power : Option Rat := Option.none
  amount : Option Rat := Option.none
deriving DecidableEq, Repr

/-- `__module__` of each message class. -/
def payloadModule : MsgPayload → String
  | .message => "pyeep.messages.message"
  | .shutdown | .newComponent | .componentActiveStateChanged _ | .deviceScanRequest _ =>
      "pyeep.messages.component"
  | .configSaveRequest | .configure _ => "pyeep.messages.config"
  | .emergencyStop | .shortcut _ | .pause _ | .resume _ => "pyeep.messages.input"
  | .setRate _ | .setPower _ | .setGroupPower _ _ | .increaseGroupPower _ _ =>
      "pyeep.messages.power"

/-- `__class__` of each message class. -/
def payloadClass : MsgPayload → String
  | .message => "Message"
  | .shutdown => "Shutdown"
  | .newComponent => "NewComponent"
  | .componentActiveStateChanged _ => "ComponentActiveStateChanged"
  | .deviceScanRequest _ => "DeviceScanRequest"
  | .configSaveRequest => "ConfigSaveRequest"
  | .configure _ => "Configure"
  | .emergencyStop => "EmergencyStop"
  | .shortcut _ => "Shortcut"
  | .pause _ => "Pause"
  | .resume _ => "Resume"
  | .setRate _ => "SetRate"
  | .setPower _ => "SetPower"
  | .setGroupPower _ _ => "SetGroupPower"
  | .increaseGroupPower _ _ => "IncreaseGroupPower"

/-- `Message.as_jsonable` serialization of `src`:
`self.src.name if self.src else None`.  (A string-valued `src`, which only a
previously decoded message can carry, would raise `AttributeError` here; the
theorems below only encode messages with a component or absent `src`.) -/
def srcToJson : Src → Option String
  | .none => Option.none
  | .comp c => some c.name
  | .str s => some s

/-- Embeds `as_jsonable` of each message class: `Jsonable.as_jsonable` writes
the type tag, `Message.as_jsonable` adds `ts`/`src`/`dst`/`name`, and each
subclass's override adds its own keys.  `ComponentActiveStateChanged` and
`DeviceScanRequest` do NOT override `as_jsonable` in the source, so their
`value`/`duration` fields are not serialized. -/
def encode (m : Msg) : Wire :=
  let w : Wire :=
    { module := payloadModule m.payload
      cls := payloadClass m.payload
      ts := m.base.ts
      src := srcToJson m.base.src
      dst := m.base.dst
      name := m.base.name }
  match m.payload with
  | .message | .shutdown | .newComponent | .configSaveRequest | .emergencyStop => w
  | .componentActiveStateChanged _ => w
  | .deviceScanRequest _ => w
  | .configure c => { w with config := some c }
  | .shortcut c => { w with command := some c }
  | .pause g => { w with group := some g }
  | .resume g => { w with group := some g }
  | .setRate r => { w with rate := some r }
  | .setPower p => { w with power := some p }
  | .setGroupPower g p => { w with group := some g, power := some p }
  | .increaseGroupPower g a => { w with group := some g, amount := some a }

/-- Message kinds, as resolved by `Jsonable.jsonable_class`. -/
inductive MsgKind
  | message | shutdown | newComponent | componentActiveStateChanged | deviceScanRequest
  | configSaveRequest | configure | emergencyStop | shortcut | pause | resume
  | setRate | setPower | setGroupPower | increaseGroupPower
deriving DecidableEq, Repr

/-- Embeds `Jsonable.jsonable_class`: looks the class up from the
`__module__`/`__class__` tags, `None` when the lookup fails. -/
def jsonable_class (w : Wire) : Option MsgKind :=
  if w.module = "pyeep.messages.message" ∧ w.cls = "Message" then some .message
  else if w.module = "pyeep.messages.component" ∧ w.cls = "Shutdown" then some .shutdown
  else if w.module = "pyeep.messages.component" ∧ w.cls = "NewComponent" then some .newComponent
  else if w.module = "pyeep.messages.component" ∧ w.cls = "ComponentActiveStateChanged" then
    some .componentActiveStateChanged
  else if w.module = "pyeep.messages.component" ∧ w.cls = "DeviceScanRequest" then
    some .deviceScanRequest
  else if w.module = "pyeep.messages.config" ∧ w.cls = "ConfigSaveRequest" then
    some .configSaveRequest
  else if w.module = "pyeep.messages.config" ∧ w.cls = "Configure" then some .configure
  else if w.module = "pyeep.messages.input" ∧ w.cls = "EmergencyStop" then some .emergencyStop
  else if w.module = "pyeep.messages.input" ∧ w.cls = "Shortcut" then some .shortcut
  else if w.module = "pyeep.messages.input" ∧ w.cls = "Pause" then some .pause
  else if w.module = "pyeep.messages.input" ∧ w.cls = "Resume" then some .resume
  else if w.module = "pyeep.messages.power" ∧ w.cls = "SetRate" then some .setRate
  else if w.module = "pyeep.messages.power" ∧ w.cls = "SetPower" then some .setPower
  else if w.module = "pyeep.messages.power" ∧ w.cls = "SetGroupPower" then some .setGroupPower
  else if w.module = "pyeep.messages.power" ∧ w.cls = "IncreaseGroupPower" then
    some .increaseGroupPower
  else Option.none

/-- `Message.__init__` applied to a decoded `src` keyword: `None` stays
`None`, a wire string is stored as-is (nothing turns it back into a
component object). -/
def srcOfJson : Option String → Src
  | Option.none => Src.none
  | some s => Src.str s

/-- Embeds `cls(**jsonable)`: each class's `__init__` consumes its required
keyword arguments from the decoded object; a missing required field raises
`TypeError`, modelled as `none`. -/
def construct (k : MsgKind) (w : Wire) : Option Msg :=
  let base : MsgBase := { ts := w.ts, src := srcOfJson w.src, dst := w.dst, name := w.name }
  match k with
  | .message => some ⟨base, .message⟩
  | .shutdown => some ⟨base, .shutdown⟩
  | .newComponent => some ⟨base, .newComponent⟩
  | .componentActiveStateChanged => w.value.map fun v => ⟨base, .componentActiveStateChanged v⟩
  | .deviceScanRequest => w.duration.map fun d => ⟨base, .deviceScanRequest d⟩
  | .configSaveRequest => some ⟨base, .configSaveRequest⟩
  | .configure => w.config.map fun c => ⟨base, .configure c⟩
  | .emergencyStop => some ⟨base, .emergencyStop⟩
  | .shortcut => w.command.map fun c => ⟨base, .shortcut c⟩
  | .pause => w.group.map fun g => ⟨base, .pause g⟩
  | .resume => w.group.map fun g => ⟨base, .resume g⟩
  | .setRate => w.rate.map fun r => ⟨base, .setRate r⟩
  | .setPower => w.power.map fun p => ⟨base, .setPower p⟩
  | .setGroupPower =>
      match w.group, w.power with
      | some g, some p => some ⟨base, .setGroupPower g p⟩
      | _, _ => Option.none
  | .increaseGroupPower =>
      match w.group, w.amount with
      | some g, some a => some ⟨base, .increaseGroupPower g a⟩
      | _, _ => Option.none

/-- Decoding as exercised by the wire bridge and the test suite: class lookup
from the type tags, then construction of the class from the decoded fields. -/
def decode (w : Wire) : Option Msg :=
  (jsonable_class w).bind fun k => construct k w

/-- What serialization does to the `src` field over a round trip: a component
becomes its plain name string. -/
def wireSrc : Src → Src
  | .none => Src.none
  | .comp c => Src.str c.name
  | .str s => Src.str s

/-- Message classes whose `as_jsonable` fails to serialize a required
constructor field. -/
def missingFields : MsgPayload → Bool
  | .componentActiveStateChanged _ => true
  | .deviceScanRequest _ => true
  | _ => false

/-- C5 counterexample: the round trip of a plain `Message` whose `src` is a
live component named "foo" yields a message whose `src` is the STRING "foo"
(stored as-is by `Message.__init__`), not `None` as the claim states. -/
theorem message_roundtrip_src_counterexample :
    decode (encode ⟨⟨some 1, Src.comp ⟨"foo"⟩, Option.none, "message"⟩, .message⟩) =
      some ⟨⟨some 1, Src.str "foo", Option.none, "message"⟩, .message⟩ ∧
    Src.str "foo" ≠ Src.none := by
  exact ⟨by decide, by decide⟩

/-- C5 amended (message wire round-trip): for every message kind other than
`ComponentActiveStateChanged` and `DeviceScanRequest` (whose `as_jsonable`
omits a required constructor field, so reconstruction fails with a
`TypeError`), decoding the encoding of a message whose `src` is a component
or `None` reconstructs every field except `src`, which becomes the source
component's name string (and stays `None` only when it was `None`). -/
theorem message_roundtrip (m : Msg) (h : ∀ s, m.base.src ≠ Src.str s) :
    decode (encode m) =
      if missingFields m.payload then Option.none
      else some ⟨{ m.base with src := wireSrc m.base.src }, m.payload⟩ := by
  obtain ⟨⟨ts, src, dst, name⟩, p⟩ := m
  cases src with
  | str s => exact absurd rfl (h s)
  | none =>
      cases p <;>
        simp [decode, encode, jsonable_class, construct, payloadModule, payloadClass,
          srcToJson, srcOfJson, wireSrc, missingFields]
  | comp c =>
      cases p <;>
        simp [decode, encode, jsonable_class, construct, payloadModule, payloadClass,
          srcToJson, srcOfJson, wireSrc, missingFields]

/-- Witness for `message_roundtrip` at a concrete `Shortcut` message held by a
component named "ctrl". -/
theorem message_roundtrip_witness :
    (∀ s, (Msg.mk ⟨some 2, Src.comp ⟨"ctrl"⟩, some "ui", "shortcut"⟩
        (.shortcut "stop")).base.src ≠ Src.str s) ∧
    decode (encode ⟨⟨some 2, Src.comp ⟨"ctrl"⟩, some "ui", "shortcut"⟩, .shortcut "stop"⟩) =
      some ⟨⟨some 2, Src.str "ctrl", some "ui", "shortcut"⟩, .shortcut "stop"⟩ := by
  refine ⟨by intro s; simp, ?_⟩
  have h := message_roundtrip
    ⟨⟨some 2, Src.comp ⟨"ctrl"⟩, some "ui", "shortcut"⟩, .shortcut "stop"⟩
    (by intro s; simp)
  simpa [missingFields, wireSrc] using h

end Messages

namespace AppModel

/-- Embeds `pyeep.app.component.Component` as far as the hub machinery reads
it: its unique `name` and the tag (`HUB`) of its owning hub. -/
structure Component where
  name : String
  hub : String
deriving DecidableEq, Repr

/-- Python exceptions raised by the modelled operations. -/
inductive PyError
  | runtimeError (msg : String)
  | keyError (key : String)
deriving DecidableEq, Repr

/-- The `RuntimeError` raised by the `check_hub` decorator. -/
def affinity_error (tag : String) : PyError :=
  .runtimeError ("function for hub " ++ tag ++ " run outside of the hub context")

/-- Embeds the `check_hub` decorator: `running_in_hub` is the value of
`self.hub._running_in_hub()` in the calling context; when it is false the
wrapped body is not run and a `RuntimeError` is raised. -/
def check_hub (tag : String) (running_in_hub : Bool) (body : Except PyError α) :
    Except PyError α :=
  if running_in_hub then body else .error (affinity_error tag)

/-- Python dict assignment `d[k] = v`: replaces the value of an existing key
in place, otherwise appends (dicts preserve insertion order). -/
def dictSet : List (String × α) → String → α → List (String × α)
  | [], k, v => [(k, v)]
  | (k0, v0) :: t, k, v => if k0 = k then (k, v) :: t else (k0, v0) :: dictSet t k v

/-- Python dict deletion `del d[k]`: `none` models the `KeyError` raised on a
missing key. -/
def dictDel : List (String × α) → String → Option (List (String × α))
  | [], _ => Option.none
  | (k0, v0) :: t, k => if k0 = k then some t else (dictDel t k).map ((k0, v0) :: ·)

/-- State of a `Hub`: its `HUB` tag, its `components` table, and the trace of
component cleanup hooks it has invoked (to observe invocation order). -/
structure HubState where
  tag : String
  components : List (String × Component)
  cleanups : List String
deriving DecidableEq, Repr

/-- Embeds `Component.cleanup`: hub-affine (via `check_hub` on the
component's hub); the base implementation is a no-op, recorded in the cleanup
trace. -/
def component_cleanup (running_in_hub : Bool) (st : HubState) (c : Component) :
    Except PyError HubState :=
  check_hub c.hub running_in_hub (.ok { st with cleanups := st.cleanups ++ [c.name] })

/-- Embeds `Component.receive`: hub-affine no-op. -/
def component_receive (running_in_hub : Bool) (c : Component) : Except PyError Unit :=
  check_hub c.hub running_in_hub (.ok ())

/-- Embeds `Hub.send`: hub-affine; forwards the message to the app's queue. -/
def hub_send (tag : String) (running_in_hub : Bool) (msg : Messages.Msg)
    (app_queue : List Messages.Msg) : Except PyError (List Messages.Msg) :=
  check_hub tag running_in_hub (.ok (app_queue ++ [msg]))

/-- The message as forwarded by `Component.send`: `msg.src = self`, and
`msg.ts = time.time()` when unset (`now` is the current clock reading). -/
def sent_msg (c : Component) (now : Rat) (msg : Messages.Msg) : Messages.Msg :=
  { msg with
      base := { msg.base with
        src := Messages.Src.comp ⟨c.name⟩
        ts := match msg.base.ts with
          | Option.none => some now
          | some t => some t } }

/-- Embeds `Component.send`: hub-affine; fills `src`/`ts` and forwards to the
owning hub's `send` (which runs its own `check_hub` in the same context). -/
def component_send (running_in_hub : Bool) (c : Component) (now : Rat)
    (msg : Messages.Msg) (app_queue : List Messages.Msg) :
    Except PyError (Messages.Msg × List Messages.Msg) :=
  check_hub c.hub running_in_hub
    ((hub_send c.hub running_in_hub (sent_msg c now msg) app_queue).map
      fun q => (sent_msg c now msg, q))

/-- Embeds `Hub._hub_thread_add_component`: hub-affine;
`self.components[component.name] = component`. -/
def hub_thread_add_component (running_in_hub : Bool) (st : HubState) (c : Component) :
    Except PyError HubState :=
  check_hub st.tag running_in_hub
    (.ok { st with components := dictSet st.components c.name c })

/-- Embeds `Hub._hub_thread_remove_component`: hub-affine;
`component.cleanup()` followed by `del self.components[component.name]`
(which raises `KeyError` when the component is not registered). -/
def hub_thread_remove_component (running_in_hub : Bool) (st : HubState) (c : Component) :
    Except PyError HubState :=
  check_hub st.tag running_in_hub
    ((component_cleanup running_in_hub st c).bind fun st1 =>
      match dictDel st1.components c.name with
      | some d => .ok { st1 with components := d }
      | Option.none => .error (.keyError c.name))

/-- C6 (hub-affinity enforcement): every `check_hub`-guarded operation
(`Component.send`, `Component.receive`, `Component.cleanup`,
`Hub._hub_thread_add_component`, `Hub._hub_thread_remove_component`) raises
the decorator's `RuntimeError` when the owning hub's `_running_in_hub()` is
false, and from the hub's own context the affinity check does not raise:
`send`/`receive`/`cleanup`/`add` succeed outright and `remove` can only fail
with a `KeyError`, never with the affinity `RuntimeError`. -/
theorem hub_affinity_enforcement (c : Component) (now : Rat) (msg : Messages.Msg)
    (q : List Messages.Msg) (st : HubState) :
    component_send false c now msg q = .error (affinity_error c.hub) ∧
    component_receive false c = .error (affinity_error c.hub) ∧
    component_cleanup false st c = .error (affinity_error c.hub) ∧
    hub_thread_add_component false st c = .error (affinity_error st.tag) ∧
    hub_thread_remove_component false st c = .error (affinity_error st.tag) ∧
    component_send true c now msg q = .ok (sent_msg c now msg, q ++ [sent_msg c now msg]) ∧
    component_receive true c = .ok () ∧
    component_cleanup true st c = .ok { st with cleanups := st.cleanups ++ [c.name] } ∧
    hub_thread_add_component true st c =
      .ok { st with components := dictSet st.components c.name c } ∧
    (∀ tag, hub_thread_remove_component true st c ≠ .error (affinity_error tag)) := by
  refine ⟨rfl, rfl, rfl, rfl, rfl, rfl, rfl, rfl, rfl, ?_⟩
  intro tag
  unfold hub_thread_remove_component check_hub component_cleanup
  cases hd : dictDel ({ st with cleanups := st.cleanups ++ [c.name] } : HubState).components
      c.name with
  | some d => simp [hd, affinity_error, Except.bind, check_hub]
  | none => simp [hd, affinity_error, Except.bind, check_hub]

/-- Witness for `hub_affinity_enforcement` at a concrete component, hub
state, message and clock. -/
theorem hub_affinity_enforcement_witness :
    component_send false ⟨"ctrl", "aio"⟩ 3 ⟨⟨Option.none, .none, Option.none, "message"⟩, .message⟩ [] =
      .error (affinity_error "aio") ∧
    component_receive false ⟨"ctrl", "aio"⟩ = .error (affinity_error "aio") ∧
    component_cleanup false ⟨"aio", [], []⟩ ⟨"ctrl", "aio"⟩ = .error (affinity_error "aio") ∧
    hub_thread_add_component false ⟨"aio", [], []⟩ ⟨"ctrl", "aio"⟩ =
      .error (affinity_error "aio") ∧
    hub_thread_remove_component false ⟨"aio", [], []⟩ ⟨"ctrl", "aio"⟩ =
      .error (affinity_error "aio") ∧
    component_send true ⟨"ctrl", "aio"⟩ 3 ⟨⟨Option.none, .none, Option.none, "message"⟩, .message⟩ [] =
      .ok (sent_msg ⟨"ctrl", "aio"⟩ 3 ⟨⟨Option.none, .none, Option.none, "message"⟩, .message⟩,
        [] ++ [sent_msg ⟨"ctrl", "aio"⟩ 3 ⟨⟨Option.none, .none, Option.none, "message"⟩, .message⟩]) ∧
    component_receive true ⟨"ctrl", "aio"⟩ = .ok () ∧
    component_cleanup true ⟨"aio", [], []⟩ ⟨"ctrl", "aio"⟩ =
      .ok { tag := "aio", components := [], cleanups := [] ++ ["ctrl"] } ∧
    hub_thread_add_component true ⟨"aio", [], []⟩ ⟨"ctrl", "aio"⟩ =
      .ok { tag := "aio", components := dictSet [] "ctrl" ⟨"ctrl", "aio"⟩, cleanups := [] } ∧
    (∀ tag, hub_thread_remove_component true ⟨"aio", [], []⟩ ⟨"ctrl", "aio"⟩ ≠
      .error (affinity_error tag)) :=
  hub_affinity_enforcement ⟨"ctrl", "aio"⟩ 3
    ⟨⟨Option.none, .none, Option.none, "message"⟩, .message⟩ [] ⟨"aio", [], []⟩

theorem dictSet_dictSet (l : List (String × α)) (k : String) (v : α) :
    dictSet (dictSet l k v) k v = dictSet l k v := by
  induction l with
  | nil => simp [dictSet]
  | cons h t ih =>
      obtain ⟨k0, v0⟩ := h
      by_cases hk : k0 = k
      · simp [dictSet, hk]
      · simp [dictSet, hk, ih]

/-- C8 counterexample: with hub `aio` holding exactly the component `a`,
removing `a` succeeds (running its cleanup hook first), and removing it a
second time does NOT leave the table unchanged without error: the cleanup
hook runs again and `del self.components["a"]` raises `KeyError`. -/
theorem hub_remove_component_counterexample :
    hub_thread_remove_component true ⟨"aio", [("a", ⟨"a", "aio"⟩)], []⟩ ⟨"a", "aio"⟩ =
      .ok ⟨"aio", [], ["a"]⟩ ∧
    hub_thread_remove_component true ⟨"aio", [], ["a"]⟩ ⟨"a", "aio"⟩ =
      .error (.keyError "a") := by
  exact ⟨rfl, rfl⟩

/-- C8 amended (hub registration contract): `Hub._hub_thread_add_component`
is idempotent (adding an already-registered component leaves the table in
the same state), and `_hub_thread_remove_component` invokes the component's
cleanup hook before deleting it from the table; but removal is NOT
idempotent: removing a component that is not registered raises `KeyError`
(after its cleanup hook has already run) instead of leaving the table
unchanged. -/
theorem hub_registration_amended (st : HubState) (c : Component) :
    ((hub_thread_add_component true st c).bind fun st1 =>
        hub_thread_add_component true st1 c) = hub_thread_add_component true st c ∧
    (∀ d, dictDel st.components c.name = some d →
      hub_thread_remove_component true st c =
        .ok { st with components := d, cleanups := st.cleanups ++ [c.name] }) ∧
    (dictDel st.components c.name = Option.none →
      hub_thread_remove_component true st c = .error (.keyError c.name)) := by
  refine ⟨?_, ?_, ?_⟩
  · simp [hub_thread_add_component, check_hub, Except.bind, dictSet_dictSet]
  · intro d hd
    simp [hub_thread_remove_component, component_cleanup, check_hub, Except.bind, hd]
  · intro hd
    simp [hub_thread_remove_component, component_cleanup, check_hub, Except.bind, hd]

/-- Witness for `hub_registration_amended` on a hub holding exactly the
component `a`. -/
theorem hub_registration_amended_witness :
    ((hub_thread_add_component true ⟨"aio", [("a", ⟨"a", "aio"⟩)], []⟩ ⟨"a", "aio"⟩).bind
        fun st1 => hub_thread_add_component true st1 ⟨"a", "aio"⟩) =
      hub_thread_add_component true ⟨"aio", [("a", ⟨"a", "aio"⟩)], []⟩ ⟨"a", "aio"⟩ ∧
    dictDel ([("a", (⟨"a", "aio"⟩ : Component))]) "a" = some [] ∧
    hub_thread_remove_component true ⟨"aio", [("a", ⟨"a", "aio"⟩)], []⟩ ⟨"a", "aio"⟩ =
      .ok ⟨"aio", [], ["a"]⟩ := by
  obtain ⟨h1, h2, h3⟩ :=
    hub_registration_amended ⟨"aio", [("a", ⟨"a", "aio"⟩)], []⟩ ⟨"a", "aio"⟩
  exact ⟨h1, by decide, h2 [] (by decide)⟩

end AppModel

namespace Midisynth

/-- Python `round` (round-half-to-even) on exact values. -/
def pyRound (x : Rat) : Int :=
  let f := x.floor
  let r := x - f
  if r < 1/2 then f
  else if 1/2 < r then f + 1
  else if f % 2 = 0 then f else f + 1

/-- `numpy.linspace(a, b, num)` with the default `endpoint=True`: `num`
evenly spaced values from `a` to `b` inclusive (for `num = 1` just `[a]`). -/
def linspace (a b : Rat) (num : Nat) : List Rat :=
  match num with
  | 0 => []
  | 1 => [a]
  | n + 2 =>
      let step := (b - a) / (n + 1)
      List.map (fun i : Nat => a + step * (i : Rat)) (List.range (n + 2))

/-- Normalize a Python slice bound against a sequence of length `len`:
negative indices count from the end, out-of-range bounds are clamped. -/
def pyIdx (len : Nat) (i : Int) : Nat :=
  if i < 0 then (len + i).toNat else min i.toNat len

/-- Python slicing `l[a:b]`. -/
def pySlice (l : List Rat) (a b : Int) : List Rat :=
  let s := pyIdx l.length a
  let e := pyIdx l.length b
  (l.drop s).take (e - s)

/-- Python indexing `l[i]` (negative indices count from the end).  An
out-of-range access raises `IndexError` in Python; the theorems below only
index in range, where the default value is never used. -/
def pyGet (l : List Rat) (i : Int) : Rat :=
  if i < 0 then l.getD (l.length + i).toNat 0 else l.getD i.toNat 0

/-- Embeds `midisynth.EnvelopeShape` (times in seconds, levels in [0,1],
floats modelled exactly). -/
structure EnvelopeShape where
  attack_level : Rat := 1
  attack_time : Rat := 1/10
  decay_time : Rat := 1/5
  sustain_level : Rat := 9/10
  release_time : Rat := 1/5
deriving DecidableEq, Repr

/-- Embeds `midisynth.Envelope`'s state.  In the source `self.tail` is left
unset by `__init__` (the line `self.tail: numpy.zeros(1)` is a bare
annotation); it is only ever read when `release_start > 0`, which requires
`release` to have run and set it, so initializing it to `[]` is unobservable. -/
structure Envelope where
  shape : EnvelopeShape
  start_frame : Int
  rate : Int
  velocity : Rat
  sustain_start : Int
  release_frames : Int
  release_start : Int
  head : List Rat
  tail : List Rat
deriving DecidableEq, Repr

/-- Embeds `Envelope.__init__`: precomputes the attack+decay curve `head` as
two concatenated linspace segments (scaled by `velocity`), with the attack
starting from `start_level * velocity`.  (`numpy.linspace` would raise on a
negative rounded count; `.toNat` clamping is only exercised by shapes with
negative times, which no theorem uses.) -/
def mkEnvelope (shape : EnvelopeShape) (frame_time : Int) (rate : Int)
    (start_level : Rat) (velocity : Rat) : Envelope :=
  { shape := shape
    start_frame := frame_time
    rate := rate
    velocity := velocity
    sustain_start := pyRound ((shape.attack_time + shape.decay_time) * rate)
    release_frames := pyRound (shape.release_time * rate)
    release_start := 0
    head :=
      linspace (start_level * velocity) (shape.attack_level * velocity)
          (pyRound (shape.attack_time * rate)).toNat ++
        linspace (shape.attack_level * velocity) (shape.sustain_level * velocity)
          (pyRound (shape.decay_time * rate)).toNat
    tail := [] }

/-- Embeds `Envelope.release`: records the release offset and precomputes the
release curve from the instantaneous level at the release frame (read from
`head` during attack/decay, the sustain level otherwise) down to 0. -/
def Envelope.release (e : Envelope) (frame_time : Int) : Envelope :=
  let elapsed := frame_time - e.start_frame
  let start_level :=
    if elapsed < (e.head.length : Int) then pyGet e.head elapsed
    else e.shape.sustain_level * e.velocity
  { e with
      release_start := frame_time - e.start_frame
      tail := linspace start_level 0 e.release_frames.toNat }

/-- Embeds `Envelope.get_chunk`: one sub-chunk of the envelope starting at
`frame_time`, at most `frames` long; `none` is the post-release silence
indicator.  (In the sustain branch a negative `count` would raise in
`numpy.full`; `.toNat` clamping is only exercised when `release` was called
before the start frame, which no theorem does.) -/
def Envelope.get_chunk (e : Envelope) (frame_time : Int) (frames : Int) :
    Option (List Rat) :=
  let elapsed := frame_time - e.start_frame
  if e.release_start > 0 ∧ elapsed ≥ e.release_start then
    if elapsed ≥ e.release_start + (e.tail.length : Int) then Option.none
    else
      let offset := elapsed - e.release_start
      let size := min frames (e.tail.length : Int)
      some (pySlice e.tail offset (offset + size))
  else if elapsed ≥ (e.head.length : Int) then
    let count := if e.release_start = 0 then frames else min frames (e.release_start - elapsed)
    some (List.replicate count.toNat (e.shape.sustain_level * e.velocity))
  else
    let size0 := min frames (e.head.length : Int)
    let size := if e.release_start > 0 then min size0 (e.release_start - elapsed) else size0
    some (pySlice e.head elapsed (elapsed + size))

/-- Result of `Envelope.generate` and of the synthesis loops built on it:
`silence` is Python's `None` return, `out` a fully assembled sample window,
and `diverge` marks the states on which the source's `while` loop would
never terminate (an empty chunk leaves `start` unchanged). -/
inductive GenOut
  | silence
  | diverge
  | out (samples : List Rat)
deriving DecidableEq, Repr

/-- Embeds the assembly loop of `Envelope.generate`: `remaining` is
`frames - start`; chunks are concatenated, a `None` chunk after data pads
with zeros, a `None` chunk with no data yet returns `None`.  Every iteration
either returns or consumes at least one frame (an empty chunk is the
`diverge` case), so the loop runs at most `remaining` times; `fuel` makes
that bound structural, and the fuel-exhausted-with-frames-left arm is
unreachable whenever `fuel ≥ remaining` (`genLoop_fuel_irrel`). -/
def genLoop (e : Envelope) :
    (fuel : Nat) → (frame_time : Int) → (remaining : Nat) → (has_data : Bool) → GenOut
  | _, _, 0, _ => .out []
  | 0, _, _ + 1, _ => .diverge
  | fuel + 1, frame_time, r + 1, has_data =>
      match e.get_chunk frame_time (r + 1 : Int) with
      | Option.none =>
          if has_data then .out (List.replicate (r + 1) 0) else .silence
      | some chunk =>
          if chunk.length = 0 then .diverge
          else
            match genLoop e fuel (frame_time + chunk.length) (r + 1 - chunk.length) true with
            | .silence => .silence
            | .diverge => .diverge
            | .out rest => .out (chunk ++ rest)

/-- Embeds `Envelope.generate`. -/
def Envelope.generate (e : Envelope) (frame_time : Int) (frames : Nat) : GenOut :=
  genLoop e frames frame_time frames false

theorem genLoop_fuel_irrel (e : Envelope) :
    ∀ (f1 f2 : Nat) (ft : Int) (r : Nat) (hd : Bool), r ≤ f1 → r ≤ f2 →
      genLoop e f1 ft r hd = genLoop e f2 ft r hd := by
  intro f1
  induction f1 with
  | zero =>
      intro f2 ft r hd h1 _
      interval_cases r
      cases f2 <;> rfl
  | succ f ih =>
      intro f2 ft r hd h1 h2
      match r, f2 with
      | 0, f2 => cases f2 <;> rfl
      | r + 1, f2 + 1 =>
          show genLoop e (f + 1) ft (r + 1) hd = genLoop e (f2 + 1) ft (r + 1) hd
          rw [genLoop, genLoop]
          cases hc : e.get_chunk ft (r + 1 : Int) with
          | none => rfl
          | some chunk =>
              by_cases hlen : chunk.length = 0
              · simp [hlen]
              · have hrec := ih f2 (ft + chunk.length) (r + 1 - chunk.length) true
                  (by omega) (by omega)
                simp [hlen, hrec]

theorem get_chunk_tail_irrel (e : Envelope) (t : List Rat) (h : e.release_start = 0)
    (ft fr : Int) :
    Envelope.get_chunk { e with tail := t } ft fr = e.get_chunk ft fr := by
  simp [Envelope.get_chunk, h]

theorem get_chunk_ne_none_of_not_released (e : Envelope) (h : ¬ e.release_start > 0)
    (ft fr : Int) : e.get_chunk ft fr ≠ Option.none := by
  unfold Envelope.get_chunk
  simp only [h, false_and, if_false]
  by_cases h2 : ft - e.start_frame ≥ (e.head.length : Int) <;> simp [h2]

theorem genLoop_ne_silence (e : Envelope)
    (h : ∀ ft fr, e.get_chunk ft fr ≠ Option.none) :
    ∀ (fuel : Nat) (ft : Int) (r : Nat) (hd : Bool),
      genLoop e fuel ft r hd ≠ GenOut.silence := by
  intro fuel
  induction fuel with
  | zero =>
      intro ft r hd
      match r with
      | 0 => simp [genLoop]
      | r + 1 => simp [genLoop]
  | succ f ih =>
      intro ft r hd
      match r with
      | 0 => simp [genLoop]
      | r + 1 =>
          rw [genLoop]
          cases hc : e.get_chunk ft (r + 1 : Int) with
          | none => exact absurd hc (h ft (r + 1 : Int))
          | some chunk =>
              by_cases hlen : chunk.length = 0
              · simp [hlen]
              · have hrec := ih (ft + chunk.length) (r + 1 - chunk.length) true
                cases hg : genLoop e f (ft + chunk.length) (r + 1 - chunk.length) true with
                | silence => exact absurd hg hrec
                | diverge => simp [hlen, hg]
                | out rest => simp [hlen, hg]

/-- C10 (release at the envelope's start frame is absorbed by the sentinel):
for every envelope freshly constructed at start frame `f`, calling
`release(f)` gives release offset `0`, which doubles as the not-released
sentinel: `get_chunk` behaves exactly as if `release` had never been called
(it never enters the release branch, so the envelope sustains indefinitely),
and `generate` never returns the no-further-output indicator `None`. -/
theorem envelope_release_at_start_is_sentinel (shape : EnvelopeShape) (f rate : Int)
    (sl v : Rat) :
    ((mkEnvelope shape f rate sl v).release f).release_start = 0 ∧
    (∀ ft fr, ((mkEnvelope shape f rate sl v).release f).get_chunk ft fr =
      (mkEnvelope shape f rate sl v).get_chunk ft fr) ∧
    (∀ ft fr, ((mkEnvelope shape f rate sl v).release f).generate ft fr ≠ GenOut.silence) := by
  have hrs : ((mkEnvelope shape f rate sl v).release f).release_start = 0 := by
    simp [Envelope.release, mkEnvelope]
  have hform : (mkEnvelope shape f rate sl v).release f =
      { mkEnvelope shape f rate sl v with
          tail := ((mkEnvelope shape f rate sl v).release f).tail } := by
    simp only [Envelope.release, mkEnvelope]
    simp
  have hchunk : ∀ ft fr, ((mkEnvelope shape f rate sl v).release f).get_chunk ft fr =
      (mkEnvelope shape f rate sl v).get_chunk ft fr := by
    intro ft fr
    rw [hform]
    exact get_chunk_tail_irrel _ _ rfl ft fr
  refine ⟨hrs, hchunk, ?_⟩
  intro ft fr
  apply genLoop_ne_silence
  intro ft2 fr2
  rw [hchunk ft2 fr2]
  exact get_chunk_ne_none_of_not_released _ (by simp [mkEnvelope]) ft2 fr2

/-- Witness for `envelope_release_at_start_is_sentinel` on the test-suite
envelope shape at rate 50, start frame 0, released at frame 0. -/
theorem envelope_release_at_start_witness :
    ((mkEnvelope {} 0 50 0 1).release 0).release_start = 0 ∧
    ((mkEnvelope {} 0 50 0 1).release 0).get_chunk 7 5 =
      (mkEnvelope {} 0 50 0 1).get_chunk 7 5 ∧
    ((mkEnvelope {} 0 50 0 1).release 0).generate 100 4 ≠ GenOut.silence := by
  obtain ⟨h1, h2, h3⟩ := envelope_release_at_start_is_sentinel {} 0 50 0 1
  exact ⟨h1, h2 7 5, h3 100 4⟩

/-- Embeds the `mido.Message` fields the synth reads: the frame-stamped
`note_on`/`note_off`/`pitchwheel` events. -/
inductive MidiMsg
  | note_on (time : Int) (velocity : Int)
  | note_off (time : Int)
  | pitchwheel (time : Int) (pitch : Int)
deriving DecidableEq, Repr

/-- `msg.time`. -/
def MidiMsg.time : MidiMsg → Int
  | .note_on t _ => t
  | .note_off t => t
  | .pitchwheel t _ => t

/-- `msg.pitch` (only ever read on `pitchwheel` messages, the only kind
stored in `last_pitchwheel`). -/
def MidiMsg.pitch : MidiMsg → Int
  | .pitchwheel _ p => p
  | _ => 0

/-- Embeds `midisynth.Note` for the sine voice class: the base `Note` state
(`note`, envelope shape, output sample rate from the audio config, pending
event queue, last pitchwheel, current envelope) plus the `Sine` subclass's
`SimpleSynth.phase` accumulator.  The phase is kept in units of
`2*math.pi` radians (the change of variable is exact, and the transcendental
sine is an abstract parameter of the synthesis functions). -/
structure Note where
  note : Int
  envelope_shape : EnvelopeShape
  out_samplerate : Int
  next_events : List MidiMsg
  last_pitchwheel : Option MidiMsg
  envelope : Option Envelope
  phase : Rat
deriving DecidableEq, Repr

/-- Embeds `Note.get_semitone`: the truthiness test `(t := msg.pitch)` makes
a zero pitch fall through to the unadjusted branch. -/
def get_semitone (n : Note) : Rat :=
  match n.last_pitchwheel with
  | some msg =>
      if msg.pitch ≠ 0 then ((n.note : Rat) - 69) + 2 * (msg.pitch : Rat) / 8192
      else (n.note : Rat) - 69
  | Option.none => (n.note : Rat) - 69

/-- Embeds `Note.get_freq` with `math.exp2` as an abstract parameter (the
float-valued exponential, a rational-to-rational function). -/
def get_freq (exp2F : Rat → Rat) (n : Note) : Rat :=
  440 * exp2F (get_semitone n / 12)

/-- Exact-real reading of `Note.get_freq`:
`440.0 * math.exp2(self.get_semitone() / 12)`. -/
noncomputable def get_freq_exact (n : Note) : Real :=
  440 * (2 : Real) ^ ((get_semitone n : Real) / 12)

/-- Embeds `Note._process_event`: a `note_on` replaces the envelope with a
fresh one started at the event time, with start level read from the old
envelope's instantaneous output at that time (0 if absent or silent) and
velocity `msg.velocity / 127`; a `note_off` releases the envelope; a
`pitchwheel` stores or clears `last_pitchwheel`. -/
def note_process_event (n : Note) (msg : MidiMsg) : Note :=
  match msg with
  | .note_on t vel =>
      let start_level :=
        match n.envelope with
        | Option.none => (0 : Rat)
        | some env =>
            match env.generate t 1 with
            | .out chunk => pyGet chunk 0
            | _ => 0
      { n with
          envelope := some (mkEnvelope n.envelope_shape t n.out_samplerate
            start_level ((vel : Rat) / 127)) }
  | .note_off t =>
      match n.envelope with
      | Option.none => n
      | some env => { n with envelope := some (env.release t) }
  | .pitchwheel _ p =>
      if p = 0 then { n with last_pitchwheel := Option.none }
      else { n with last_pitchwheel := some msg }

/-- Embeds the loop of `Note.get_events` over the pending queue: events due
in `[frame_time, frame_time + frames)` are collected; an event already in
the past (MIDI input buffer underrun) is processed immediately instead. -/
def get_events_aux (frame_time frames : Int) :
    List MidiMsg → Note → List MidiMsg × Note
  | [], n => ([], { n with next_events := [] })
  | msg :: rest, n =>
      if msg.time < frame_time + frames then
        if msg.time < frame_time then
          get_events_aux frame_time frames rest (note_process_event n msg)
        else
          let p := get_events_aux frame_time frames rest n
          (msg :: p.1, p.2)
      else ([], { n with next_events := msg :: rest })

/-- Embeds `Note.get_events`. -/
def get_events (n : Note) (frame_time frames : Int) : List MidiMsg × Note :=
  get_events_aux frame_time frames n.next_events n

/-- Embeds `SimpleSynth.synth`: per sample the phase accumulator advances by
one sample's worth of cycles and the enveloped sine sample is mixed into the
array (`sinFn` is `math.sin` after the exact change of variable to cycle
units; extra array samples beyond the envelope chunk cannot occur, the
envelope chunk always has the array's length). -/
def simple_synth (sinFn : Rat → Rat) (rate : Int) (freq : Rat) :
    Rat → List Rat → List Rat → Rat × List Rat
  | phase, [], _ => (phase, [])
  | phase, a :: arest, [] => (phase, a :: arest)
  | phase, a :: arest, e :: erest =>
      let phase1 := phase + freq / rate
      let p := simple_synth sinFn rate freq phase1 arest erest
      (p.1, (a + sinFn phase1 * e) :: p.2)

/-- Embeds `Note.synth` (with `Sine.add_wave`): generate the envelope window
and mix the sine wave scaled by it; a silent window mixes nothing and leaves
the phase accumulator unchanged.  Returns `none` on the states where
`Envelope.generate` would not terminate. -/
def note_synth (sinFn exp2F : Rat → Rat) (n : Note) (frame_time : Int)
    (arr : List Rat) : Option (Rat × List Rat) :=
  match n.envelope with
  | Option.none => some (n.phase, arr)
  | some env =>
      match env.generate frame_time arr.length with
      | .silence => some (n.phase, arr)
      | .diverge => Option.none
      | .out envChunk =>
          some (simple_synth sinFn n.out_samplerate (get_freq exp2F n) n.phase arr envChunk)

/-- Embeds the event-splitting loop of `Note.generate`: the buffer is split
at each event's offset, each segment is synthesized with the state left by
the previous events, and each event is processed at its boundary. -/
def note_generate_loop (sinFn exp2F : Rat → Rat) (frame_time : Int) :
    List MidiMsg → Note → List Rat → Int → Option (Note × List Rat)
  | [], n, arr, last_offset =>
      if (arr.length : Int) > last_offset then
        let s := pyIdx arr.length last_offset
        (note_synth sinFn exp2F n (frame_time + last_offset) (arr.drop s)).map
          fun q => ({ n with phase := q.1 }, arr.take s ++ q.2)
      else some (n, arr)
  | msg :: rest, n, arr, last_offset =>
      let offset := msg.time - frame_time
      let step : Option (Note × List Rat) :=
        if offset > last_offset then
          let s := pyIdx arr.length last_offset
          let e := pyIdx arr.length offset
          let seg := (arr.drop s).take (e - s)
          (note_synth sinFn exp2F n (frame_time + last_offset) seg).map
            fun q => ({ n with phase := q.1 }, arr.take s ++ q.2 ++ arr.drop (s + seg.length))
        else some (n, arr)
      step.bind fun q =>
        note_generate_loop sinFn exp2F frame_time rest (note_process_event q.1 msg) q.2 offset

/-- Embeds `Note.generate`: drain the due events; with no due and no pending
events, mix the continuation of the current envelope (returning `False` when
there is no envelope at all); otherwise split the buffer at the event
offsets.  The `Bool` is the keep-alive return value. -/
def note_generate (sinFn exp2F : Rat → Rat) (n : Note) (frame_time : Int)
    (arr : List Rat) : Option (Note × List Rat × Bool) :=
  let p := get_events n frame_time (arr.length : Int)
  if p.1 = [] ∧ p.2.next_events = [] then
    match p.2.envelope with
    | Option.none => some (p.2, arr, false)
    | some _ =>
        (note_synth sinFn exp2F p.2 frame_time arr).map
          fun q => ({ p.2 with phase := q.1 }, q.2, true)
  else
    (note_generate_loop sinFn exp2F frame_time p.1 p.2 arr 0).map
      fun q => (q.1, q.2, true)

/-- Embeds `Instrument.generate`: run every note's `generate` over the shared
mix buffer in table order, deleting from the table each note that returned
`False`. -/
def instrument_generate (sinFn exp2F : Rat → Rat) :
    List (Int × Note) → Int → List Rat → Option (List (Int × Note) × List Rat)
  | [], _, arr => some ([], arr)
  | (id, note) :: rest, frame_time, arr =>
      (note_generate sinFn exp2F note frame_time arr).bind fun q =>
        (instrument_generate sinFn exp2F rest frame_time q.2.1).map fun r =>
          (if q.2.2 then (id, q.1) :: r.1 else r.1, r.2)

theorem rat_floor_eq_floor (q : Rat) : q.floor = ⌊q⌋ := rfl

theorem pyRound_intCast (n : Int) : pyRound (n : Rat) = n := by
  simp only [pyRound, rat_floor_eq_floor, Int.floor_intCast, sub_self]
  norm_num

theorem length_map_range (f : Nat → Rat) (n : Nat) :
    ((List.range n).map f).length = n := by
  rw [List.length_map, List.length_range]

theorem linspace_length (a b : Rat) (n : Nat) : (linspace a b n).length = n := by
  match n with
  | 0 => rfl
  | 1 => rfl
  | n + 2 =>
      simp only [linspace]
      exact length_map_range _ _

theorem linspace_eq_cons (a b : Rat) (n : Nat) (h : n ≠ 0) :
    ∃ t, linspace a b n = a :: t := by
  match n with
  | 1 => exact ⟨[], rfl⟩
  | n + 2 =>
      refine ⟨List.map (fun i : Nat => a + (b - a) / ((n : Rat) + 1) * (i : Rat))
        (List.map Nat.succ (List.range (n + 1))), ?_⟩
      simp only [linspace]
      rw [List.range_succ_eq_map]
      simp [List.map_map, Function.comp]

theorem pyGet_singleton (x : Rat) : pyGet [x] 0 = x := by
  simp [pyGet]

theorem generate_one (e : Envelope) (ft : Int) (x : Rat)
    (hc : e.get_chunk ft 1 = some [x]) : e.generate ft 1 = .out [x] := by
  show genLoop e 1 ft 1 false = .out [x]
  rw [show (1 : Nat) = 0 + 1 from rfl, genLoop]
  norm_num [hc, genLoop]

theorem get_chunk_at_start (e : Envelope) (x : Rat) (t : List Rat)
    (h1 : e.release_start = 0) (hh : e.head = x :: t) :
    e.get_chunk e.start_frame 1 = some [x] := by
  unfold Envelope.get_chunk
  rw [hh, h1]
  simp only [sub_self]
  rw [if_neg (by simp)]
  rw [if_neg (by push_cast [List.length_cons]; omega)]
  simp only [gt_iff_lt, lt_self_iff_false, if_false]
  have hmin : min (1 : Int) (((x :: t).length : Nat) : Int) = 1 :=
    min_eq_left (by push_cast [List.length_cons]; omega)
  rw [hmin]
  simp [pySlice, pyIdx]

/-- A fresh envelope's very first generated amplitude is
`start_level * velocity` (the first entry of the attack linspace), provided
the attack curve has at least one frame. -/
theorem mkEnvelope_first_sample (shape : EnvelopeShape) (f rate : Int) (sl v : Rat)
    (h : 1 ≤ (pyRound (shape.attack_time * rate)).toNat) :
    (mkEnvelope shape f rate sl v).generate f 1 = .out [sl * v] := by
  obtain ⟨t, ht⟩ := linspace_eq_cons (sl * v) (shape.attack_level * v)
    (pyRound (shape.attack_time * rate)).toNat (by omega)
  have hhead : (mkEnvelope shape f rate sl v).head = (sl * v) :: (t ++
      linspace (shape.attack_level * v) (shape.sustain_level * v)
        (pyRound (shape.decay_time * rate)).toNat) := by
    simp [mkEnvelope, ht]
  apply generate_one
  have := get_chunk_at_start (mkEnvelope shape f rate sl v) (sl * v) _ rfl hhead
  exact this

theorem get_chunk_sustain (e : Envelope) (ft : Int)
    (h1 : e.release_start = 0) (h2 : ft - e.start_frame ≥ (e.head.length : Int)) :
    e.get_chunk ft 1 = some [e.shape.sustain_level * e.velocity] := by
  unfold Envelope.get_chunk
  rw [if_neg (by rw [h1]; simp)]
  rw [if_pos h2]
  simp [h1]

/-- C2 amended (envelope retrigger scales by the new velocity): processing a
new `note_on` at frame `t` on a note whose live envelope has instantaneous
amplitude `a` at `t` creates a replacement envelope whose very first
generated value is `a * (velocity/127)` — the old instantaneous level scaled
by the NEW velocity, equal to the old level only when the new velocity is
127 (or the level is 0). -/
theorem note_retrigger_scales_by_velocity (n : Note) (env : Envelope) (t : Int)
    (vel : Int) (a : Rat)
    (henv : n.envelope = some env)
    (hold : env.generate t 1 = .out [a])
    (hatk : 1 ≤ (pyRound (n.envelope_shape.attack_time * n.out_samplerate)).toNat) :
    ∃ env2, (note_process_event n (.note_on t vel)).envelope = some env2 ∧
      env2.generate t 1 = .out [a * ((vel : Rat) / 127)] := by
  refine ⟨mkEnvelope n.envelope_shape t n.out_samplerate a ((vel : Rat) / 127), ?_, ?_⟩
  · simp [note_process_event, henv, hold, pyGet]
  · exact mkEnvelope_first_sample _ _ _ _ _ hatk

/-- C2/C3 fixture: a shape whose attack lasts exactly one frame at rate 10
and whose decay is instantaneous, so the precomputed curve is fully
symbolic. -/
def shapeS : EnvelopeShape :=
  { attack_level := 1, attack_time := 1/10, decay_time := 0,
    sustain_level := 9/10, release_time := 1/5 }

/-- C2 fixture: envelope started at frame 0, rate 10, full velocity. -/
def envS : Envelope := mkEnvelope shapeS 0 10 0 1

/-- C2 fixture: a note holding the live envelope `envS`. -/
def noteS : Note :=
  { note := 69, envelope_shape := shapeS, out_samplerate := 10,
    next_events := [], last_pitchwheel := Option.none,
    envelope := some envS, phase := 0 }

theorem shapeS_attack_round :
    pyRound (shapeS.attack_time * ((10 : Int) : Rat)) = 1 := by
  have h1 : shapeS.attack_time * ((10 : Int) : Rat) = ((1 : Int) : Rat) := by
    norm_num [shapeS]
  rw [h1, pyRound_intCast]

theorem shapeS_decay_round :
    pyRound (shapeS.decay_time * ((10 : Int) : Rat)) = 0 := by
  have h1 : shapeS.decay_time * ((10 : Int) : Rat) = ((0 : Int) : Rat) := by
    simp [shapeS]
  rw [h1, pyRound_intCast]

theorem envS_head : envS.head = [0] := by
  show (linspace (0 * 1) (shapeS.attack_level * 1)
      (pyRound (shapeS.attack_time * ((10 : Int) : Rat))).toNat ++
    linspace (shapeS.attack_level * 1) (shapeS.sustain_level * 1)
      (pyRound (shapeS.decay_time * ((10 : Int) : Rat))).toNat) = [0]
  rw [shapeS_attack_round, shapeS_decay_round]
  simp [linspace]

theorem envS_head_length : (envS.head.length : Int) = 1 := by
  rw [envS_head]
  rfl

theorem envS_sample : envS.generate 5 1 = .out [9/10] := by
  have hstart : envS.start_frame = 0 := rfl
  have hc := get_chunk_sustain envS 5 rfl (by rw [envS_head_length, hstart]; norm_num)
  have hval : envS.shape.sustain_level * envS.velocity = 9/10 := by
    show shapeS.sustain_level * 1 = 9/10
    simp [shapeS]
  rw [hval] at hc
  exact generate_one _ _ _ hc

theorem noteS_attack_pos :
    1 ≤ (pyRound (noteS.envelope_shape.attack_time * noteS.out_samplerate)).toNat := by
  show 1 ≤ (pyRound (shapeS.attack_time * ((10 : Int) : Rat))).toNat
  rw [shapeS_attack_round]
  rfl

/-- C2 counterexample: `noteS` holds a live envelope whose exact
instantaneous amplitude at frame 5 is 9/10 (its sustain level), but
processing `note_on(time=5, velocity=64)` creates a replacement envelope
whose very first generated value is `9/10 * 64/127`, NOT the old
instantaneous amplitude: the retrigger is scaled by the new velocity. -/
theorem note_retrigger_counterexample :
    envS.generate 5 1 = .out [9/10] ∧
    (∃ env2, (note_process_event noteS (.note_on 5 64)).envelope = some env2 ∧
      env2.generate 5 1 = .out [9/10 * (((64 : Int) : Rat) / 127)]) ∧
    9/10 * (((64 : Int) : Rat) / 127) ≠ (9/10 : Rat) := by
  refine ⟨envS_sample, ?_, by push_cast; norm_num⟩
  exact note_retrigger_scales_by_velocity noteS envS 5 64 (9/10) rfl envS_sample
    noteS_attack_pos

/-- Witness for `note_retrigger_scales_by_velocity` at the concrete fixture
`noteS`, retriggered at frame 5 with velocity 64. -/
theorem note_retrigger_scales_witness :
    noteS.envelope = some envS ∧
    envS.generate 5 1 = .out [9/10] ∧
    1 ≤ (pyRound (noteS.envelope_shape.attack_time * noteS.out_samplerate)).toNat ∧
    ∃ env2, (note_process_event noteS (.note_on 5 64)).envelope = some env2 ∧
      env2.generate 5 1 = .out [9/10 * (((64 : Int) : Rat) / 127)] :=
  ⟨rfl, envS_sample, noteS_attack_pos,
    note_retrigger_scales_by_velocity noteS envS 5 64 (9/10) rfl envS_sample
      noteS_attack_pos⟩

/-- C3 fixture: `envS` released at frame 3 (during sustain); its 2-frame
release curve is exhausted from frame 5 on, so the envelope is fully decayed
to silence. -/
def noteDead : Note := { noteS with envelope := some (envS.release 3) }

theorem envS_release_frames : envS.release_frames = 2 := by
  show pyRound (shapeS.release_time * ((10 : Int) : Rat)) = 2
  have h1 : shapeS.release_time * ((10 : Int) : Rat) = ((2 : Int) : Rat) := by
    norm_num [shapeS]
  rw [h1, pyRound_intCast]

theorem envR_tail_length : ((envS.release 3).tail.length : Int) = 2 := by
  show ((linspace _ 0 envS.release_frames.toNat).length : Int) = 2
  rw [linspace_length, envS_release_frames]
  rfl

theorem envR_release_start : (envS.release 3).release_start = 3 := by
  show (3 : Int) - envS.start_frame = 3
  rw [show envS.start_frame = 0 from rfl]
  norm_num

theorem envR_chunk_none (fr : Int) : (envS.release 3).get_chunk 8 fr = Option.none := by
  unfold Envelope.get_chunk
  rw [if_pos, if_pos]
  · rw [show (envS.release 3).start_frame = 0 from rfl, envR_release_start,
      envR_tail_length]
    norm_num
  · constructor
    · rw [envR_release_start]; norm_num
    · rw [show (envS.release 3).start_frame = 0 from rfl, envR_release_start]
      norm_num

theorem envR_silent : (envS.release 3).generate 8 4 = GenOut.silence := by
  show genLoop (envS.release 3) 4 8 4 false = GenOut.silence
  rw [show (4 : Nat) = 3 + 1 from rfl, genLoop, envR_chunk_none]
  rfl

theorem noteDead_generate :
    note_generate id id noteDead 8 (List.replicate 4 0) =
      some (noteDead, List.replicate 4 0, true) := by
  have hget : get_events noteDead 8 ((List.replicate 4 (0:Rat)).length : Int) =
      ([], noteDead) := by
    simp [get_events, get_events_aux, noteDead, noteS]
  rw [note_generate, hget]
  simp only [noteDead, noteS, note_synth, List.length_replicate]
  rw [envR_silent]
  simp

theorem noteDead_not_pruned :
    instrument_generate id id [(69, noteDead)] 8 (List.replicate 4 0) =
      some ([(69, noteDead)], List.replicate 4 0) := by
  rw [instrument_generate, noteDead_generate]
  rfl

/-- C3 (note pruning, code-bug evidence): `noteDead` is completely turned
off — its envelope has fully decayed to silence (`generate` returns the
no-output indicator over the whole window) and no events are pending — yet
`Note.generate` returns `True` (contradicting its own docstring, "Return
False if this note is completely turned off"), mixes nothing, and
`Instrument.generate` therefore keeps the silent note in its map forever:
once a note_on has run, `self.envelope` is never reset to `None`, and
`generate` returns `False` only when `envelope is None`. -/
theorem silent_note_is_not_pruned :
    (envS.release 3).generate 8 4 = GenOut.silence ∧
    noteDead.next_events = [] ∧
    note_generate id id noteDead 8 (List.replicate 4 0) =
      some (noteDead, List.replicate 4 0, true) ∧
    instrument_generate id id [(69, noteDead)] 8 (List.replicate 4 0) =
      some ([(69, noteDead)], List.replicate 4 0) :=
  ⟨envR_silent, rfl, noteDead_generate, noteDead_not_pruned⟩

/-- C9 amended (note frequency): with no active pitch-wheel the frequency is
`440 * 2^((note-69)/12)`; with an active pitch-wheel value `bend ≠ 0` the
adjustment added to the semitone exponent is `2*bend/8192` semitones (the GM
±2-semitone full range), i.e. the frequency is
`440 * 2^(((note-69) + 2*bend/8192)/12)` — not `2^(bend/8192)` semitones. -/
theorem note_freq_formula (n : Note) :
    (n.last_pitchwheel = Option.none →
      get_freq_exact n = 440 * (2 : Real) ^ (((n.note : Real) - 69) / 12)) ∧
    (∀ t p, n.last_pitchwheel = some (.pitchwheel t p) → p ≠ 0 →
      get_freq_exact n =
        440 * (2 : Real) ^ ((((n.note : Real) - 69) + 2 * (p : Real) / 8192) / 12)) := by
  constructor
  · intro h
    unfold get_freq_exact get_semitone
    rw [h]
    congr 1
    push_cast
    ring_nf
  · intro t p h hp
    unfold get_freq_exact get_semitone
    rw [h]
    simp only [MidiMsg.pitch, hp, ne_eq, not_false_iff, if_true, if_pos]
    congr 1
    push_cast
    ring_nf

/-- C9 fixture: note 69 with an active pitch-wheel at half of the positive
range (`pitch = 4096`). -/
def noteBend : Note :=
  { note := 69, envelope_shape := {}, out_samplerate := 48000, next_events := [],
    last_pitchwheel := some (.pitchwheel 0 4096), envelope := Option.none, phase := 0 }

/-- Witness for `note_freq_formula` at the concrete fixture `noteBend` (and,
for the no-pitch-wheel part, at `noteS`). -/
theorem note_freq_formula_witness :
    (noteS.last_pitchwheel = Option.none →
      get_freq_exact noteS = 440 * (2 : Real) ^ (((noteS.note : Real) - 69) / 12)) ∧
    (noteBend.last_pitchwheel = some (.pitchwheel 0 4096) → (4096 : Int) ≠ 0 →
      get_freq_exact noteBend =
        440 * (2 : Real) ^
          ((((noteBend.note : Real) - 69) + 2 * ((4096 : Int) : Real) / 8192) / 12)) :=
  ⟨(note_freq_formula noteS).1, (note_freq_formula noteBend).2 0 4096⟩

theorem noteBend_semitone : get_semitone noteBend = 1 := by
  unfold get_semitone noteBend
  norm_num [MidiMsg.pitch]

/-- C9 counterexample: for note 69 with active bend 4096, the code's
frequency is `440 * 2^(1/12)` (a one-semitone shift: `2*4096/8192 = 1`
semitones), while the claimed formula — `2^(bend/8192)` semitones applied to
the exponent — would give `440 * 2^(2^(1/2)/12)`; the two differ. -/
theorem note_freq_bend_counterexample :
    get_freq_exact noteBend = 440 * (2 : Real) ^ ((1 : Real) / 12) ∧
    440 * (2 : Real) ^ ((1 : Real) / 12) ≠
      440 * (2 : Real) ^ (((2 : Real) ^ ((4096 : Real) / 8192)) / 12) := by
  constructor
  · unfold get_freq_exact
    rw [noteBend_semitone]
    norm_num
  · have h48 : (4096 : Real) / 8192 = 1 / 2 := by norm_num
    rw [h48]
    have hgt : (1 : Real) < (2 : Real) ^ ((1 : Real) / 2) := by
      rw [Real.one_lt_rpow_iff_of_pos (by norm_num)]
      left
      constructor <;> norm_num
    have hlt : (2 : Real) ^ ((1 : Real) / 12) <
        (2 : Real) ^ (((2 : Real) ^ ((1 : Real) / 2)) / 12) := by
      rw [Real.rpow_lt_rpow_left_iff (by norm_num)]
      linarith
    have := mul_lt_mul_of_pos_left hlt (show (0 : Real) < 440 by norm_num)
    exact ne_of_lt this

/-- An envelope is fully decayed ("dead") at frame `t`: released, and past
the end of its release curve.  From such a frame on, `get_chunk` returns the
silence indicator forever. -/
def deadAt (e : Envelope) (t : Int) : Prop :=
  0 < e.release_start ∧ e.release_start + (e.tail.length : Int) ≤ t - e.start_frame

instance (e : Envelope) (t : Int) : Decidable (deadAt e t) :=
  inferInstanceAs (Decidable (_ ∧ _))

/-- The instantaneous amplitude of an envelope at frame `t` (meaningful when
the envelope is not dead at `t` and `e.start_frame ≤ t`). -/
def sampleVal (e : Envelope) (t : Int) : Rat :=
  let elapsed := t - e.start_frame
  if 0 < e.release_start ∧ e.release_start ≤ elapsed then
    e.tail.getD (elapsed - e.release_start).toNat 0
  else if (e.head.length : Int) ≤ elapsed then
    e.shape.sustain_level * e.velocity
  else
    e.head.getD elapsed.toNat 0

/-- Envelope states on which the generation loops terminate and behave
pointwise: a non-negative release offset and a query window starting at or
after the envelope's start frame. -/
def EnvOK (e : Envelope) (ft : Int) : Prop :=
  0 ≤ e.release_start ∧ e.start_frame ≤ ft

instance (e : Envelope) (ft : Int) : Decidable (EnvOK e ft) :=
  inferInstanceAs (Decidable (_ ∧ _))

theorem deadAt_mono (e : Envelope) (t t2 : Int) (h : deadAt e t) (h2 : t ≤ t2) :
    deadAt e t2 := ⟨h.1, by have := h.2; omega⟩

theorem EnvOK_mono (e : Envelope) (ft k : Int) (h : EnvOK e ft) (h2 : 0 ≤ k) :
    EnvOK e (ft + k) := ⟨h.1, by have := h.2; omega⟩

theorem get_chunk_dead (e : Envelope) (ft fr : Int) (h1 : 0 < e.release_start)
    (h2 : e.release_start + (e.tail.length : Int) ≤ ft - e.start_frame) :
    e.get_chunk ft fr = Option.none := by
  unfold Envelope.get_chunk
  rw [if_pos ⟨h1, by omega⟩, if_pos (by omega)]

theorem get_chunk_release (e : Envelope) (ft fr : Int) (h1 : 0 < e.release_start)
    (h2 : e.release_start ≤ ft - e.start_frame)
    (h3 : ft - e.start_frame < e.release_start + (e.tail.length : Int)) :
    e.get_chunk ft fr = some (pySlice e.tail (ft - e.start_frame - e.release_start)
      (ft - e.start_frame - e.release_start + min fr (e.tail.length : Int))) := by
  unfold Envelope.get_chunk
  rw [if_pos ⟨h1, h2⟩, if_neg (by omega)]

theorem get_chunk_sustain_rs0 (e : Envelope) (ft fr : Int) (h1 : e.release_start = 0)
    (h2 : (e.head.length : Int) ≤ ft - e.start_frame) :
    e.get_chunk ft fr =
      some (List.replicate fr.toNat (e.shape.sustain_level * e.velocity)) := by
  unfold Envelope.get_chunk
  rw [if_neg (by rw [h1]; simp), if_pos h2, if_pos h1]

theorem get_chunk_sustain_rspos (e : Envelope) (ft fr : Int) (h1 : 0 < e.release_start)
    (h2 : ft - e.start_frame < e.release_start)
    (h3 : (e.head.length : Int) ≤ ft - e.start_frame) :
    e.get_chunk ft fr =
      some (List.replicate (min fr (e.release_start - (ft - e.start_frame))).toNat
        (e.shape.sustain_level * e.velocity)) := by
  unfold Envelope.get_chunk
  rw [if_neg (by intro hc; omega), if_pos h3, if_neg (by omega)]

theorem get_chunk_attack_rs0 (e : Envelope) (ft fr : Int) (h1 : e.release_start = 0)
    (h2 : ft - e.start_frame < (e.head.length : Int)) :
    e.get_chunk ft fr = some (pySlice e.head (ft - e.start_frame)
      (ft - e.start_frame + min fr (e.head.length : Int))) := by
  unfold Envelope.get_chunk
  rw [if_neg (by rw [h1]; simp), if_neg (by omega)]
  simp [h1]

theorem get_chunk_attack_rspos (e : Envelope) (ft fr : Int) (h1 : 0 < e.release_start)
    (h2 : ft - e.start_frame < e.release_start)
    (h3 : ft - e.start_frame < (e.head.length : Int)) :
    e.get_chunk ft fr = some (pySlice e.head (ft - e.start_frame)
      (ft - e.start_frame +
        min (min fr (e.head.length : Int)) (e.release_start - (ft - e.start_frame)))) := by
  unfold Envelope.get_chunk
  rw [if_neg (by intro hc; omega), if_neg (by omega)]
  simp [h1]

theorem get_chunk_none_iff (e : Envelope) (ft fr : Int) (hok : EnvOK e ft) :
    (e.get_chunk ft fr = Option.none ↔ deadAt e ft) := by
  constructor
  · intro h
    by_cases hrs : 0 < e.release_start
    · by_cases hrel : e.release_start ≤ ft - e.start_frame
      · by_cases hdead : e.release_start + (e.tail.length : Int) ≤ ft - e.start_frame
        · exact ⟨hrs, hdead⟩
        · rw [get_chunk_release e ft fr hrs hrel (by omega)] at h
          cases h
      · by_cases hsus : (e.head.length : Int) ≤ ft - e.start_frame
        · rw [get_chunk_sustain_rspos e ft fr hrs (by omega) hsus] at h
          cases h
        · rw [get_chunk_attack_rspos e ft fr hrs (by omega) (by omega)] at h
          cases h
    · have h0 : e.release_start = 0 := by have := hok.1; omega
      by_cases hsus : (e.head.length : Int) ≤ ft - e.start_frame
      · rw [get_chunk_sustain_rs0 e ft fr h0 hsus] at h
        cases h
      · rw [get_chunk_attack_rs0 e ft fr h0 (by omega)] at h
        cases h
  · intro hd
    exact get_chunk_dead e ft fr hd.1 hd.2

theorem drop_take_getD (l : List Rat) (s t i : Nat)
    (h2 : i < ((l.drop s).take t).length) :
    ((l.drop s).take t).getD i 0 = l.getD (s + i) 0 := by
  rw [List.getD_eq_getElem _ _ h2, List.getElem_take, List.getElem_drop,
    List.getD_eq_getElem]

theorem replicate_getD (v : Rat) (n i : Nat) (h : i < n) :
    (List.replicate n v).getD i 0 = v := by
  rw [List.getD_eq_getElem _ _ (by simp [h])]
  simp

theorem slice_block (l : List Rat) (s k : Int) (h0 : 0 ≤ s) (hs : s < (l.length : Int))
    (hk : 1 ≤ k) :
    1 ≤ (pySlice l s (s + k)).length ∧ ((pySlice l s (s + k)).length : Int) ≤ k ∧
      ∀ i : Nat, i < (pySlice l s (s + k)).length →
        ((s + i : Int) < (l.length : Int)) ∧ ((i : Int) < k) ∧
        (pySlice l s (s + k)).getD i 0 = l.getD (s.toNat + i) 0 := by
  have hidx1 : pyIdx l.length s = s.toNat := by
    unfold pyIdx
    rw [if_neg (by omega)]
    omega
  have hidx2 : pyIdx l.length (s + k) = min (s + k).toNat l.length := by
    unfold pyIdx
    rw [if_neg (by omega)]
  have hform : pySlice l s (s + k) =
      (l.drop s.toNat).take (min (s + k).toNat l.length - s.toNat) := by
    unfold pySlice
    rw [hidx1, hidx2]
  have hlen : (pySlice l s (s + k)).length =
      min (min (s + k).toNat l.length - s.toNat) (l.length - s.toNat) := by
    rw [hform]
    simp
  refine ⟨by omega, by omega, ?_⟩
  intro i hi
  refine ⟨by omega, by omega, ?_⟩
  rw [hform]
  exact drop_take_getD l s.toNat _ i (by rw [← hform]; exact hi)

/-- Pointwise characterization of a single (non-silent) chunk: it is
nonempty, at most `fr` long, and its `i`-th entry is the envelope's
instantaneous amplitude at frame `ft + i`, every one of those frames being
before the envelope's death. -/
theorem get_chunk_pointwise (e : Envelope) (ft fr : Int) (hok : EnvOK e ft)
    (hfr : 1 ≤ fr) (halive : ¬ deadAt e ft) :
    ∃ c, e.get_chunk ft fr = some c ∧ 1 ≤ c.length ∧ (c.length : Int) ≤ fr ∧
      ∀ i : Nat, i < c.length →
        ¬ deadAt e (ft + i) ∧ c.getD i 0 = sampleVal e (ft + i) := by
  have helapsed : 0 ≤ ft - e.start_frame := by have := hok.2; omega
  by_cases hrs : 0 < e.release_start
  · by_cases hrel : e.release_start ≤ ft - e.start_frame
    · -- release region; alive means within the tail
      have htail : ft - e.start_frame < e.release_start + (e.tail.length : Int) := by
        by_contra hc
        exact halive ⟨hrs, by omega⟩
      refine ⟨_, get_chunk_release e ft fr hrs hrel htail, ?_⟩
      obtain ⟨hh1, hh2, hh3⟩ := slice_block e.tail (ft - e.start_frame - e.release_start)
        (min fr (e.tail.length : Int)) (by omega) (by omega) (by omega)
      refine ⟨hh1, le_trans hh2 (by omega), ?_⟩
      intro i hi
      obtain ⟨hb1, hb2, hb3⟩ := hh3 i hi
      refine ⟨?_, ?_⟩
      · intro hd
        have := hd.2
        omega
      · rw [hb3]
        unfold sampleVal
        rw [if_pos ⟨hrs, by omega⟩]
        congr 1
        omega
    · by_cases hsus : (e.head.length : Int) ≤ ft - e.start_frame
      · -- sustain before a pending release
        refine ⟨_, get_chunk_sustain_rspos e ft fr hrs (by omega) hsus, ?_⟩
        refine ⟨by simp; omega, by simp; omega, ?_⟩
        intro i hi
        simp only [List.length_replicate] at hi
        refine ⟨?_, ?_⟩
        · intro hd
          have h2 := hd.2
          have : (0:Int) ≤ (e.tail.length : Int) := Int.natCast_nonneg _
          omega
        · rw [replicate_getD _ _ _ hi]
          unfold sampleVal
          rw [if_neg (by intro hc; omega), if_pos (by omega)]
      · -- attack/decay before a pending release
        refine ⟨_, get_chunk_attack_rspos e ft fr hrs (by omega) (by omega), ?_⟩
        obtain ⟨hh1, hh2, hh3⟩ := slice_block e.head (ft - e.start_frame)
          (min (min fr (e.head.length : Int)) (e.release_start - (ft - e.start_frame)))
          (by omega) (by omega) (by omega)
        refine ⟨hh1, le_trans hh2 (by omega), ?_⟩
        intro i hi
        obtain ⟨hb1, hb2, hb3⟩ := hh3 i hi
        refine ⟨?_, ?_⟩
        · intro hd
          have h2 := hd.2
          have : (0:Int) ≤ (e.tail.length : Int) := Int.natCast_nonneg _
          omega
        · rw [hb3]
          unfold sampleVal
          rw [if_neg (by intro hc; omega), if_neg (by omega)]
          congr 1
          omega
  · have h0 : e.release_start = 0 := by have := hok.1; omega
    by_cases hsus : (e.head.length : Int) ≤ ft - e.start_frame
    · refine ⟨_, get_chunk_sustain_rs0 e ft fr h0 hsus, ?_⟩
      refine ⟨by simp; omega, by simp; omega, ?_⟩
      intro i hi
      simp only [List.length_replicate] at hi
      refine ⟨?_, ?_⟩
      · intro hd
        have := hd.1
        omega
      · rw [replicate_getD _ _ _ hi]
        unfold sampleVal
        rw [if_neg (by rw [h0]; intro hc; omega), if_pos (by omega)]
    · refine ⟨_, get_chunk_attack_rs0 e ft fr h0 (by omega), ?_⟩
      obtain ⟨hh1, hh2, hh3⟩ := slice_block e.head (ft - e.start_frame)
        (min fr (e.head.length : Int)) (by omega) (by omega) (by omega)
      refine ⟨hh1, le_trans hh2 (by omega), ?_⟩
      intro i hi
      obtain ⟨hb1, hb2, hb3⟩ := hh3 i hi
      refine ⟨?_, ?_⟩
      · intro hd
        have := hd.1
        omega
      · rw [hb3]
        unfold sampleVal
        rw [if_neg (by rw [h0]; intro hc; omega), if_neg (by omega)]
        congr 1
        omega

/-- The pointwise amplitude window an alive envelope produces: instantaneous
amplitude per frame, with zeros after the envelope's death. -/
def pointList (e : Envelope) (ft : Int) (r : Nat) : List Rat :=
  List.map (fun i : Nat =>
    if deadAt e (ft + (i : Int)) then 0 else sampleVal e (ft + (i : Int)))
    (List.range r)

theorem pointList_length (e : Envelope) (ft : Int) (r : Nat) :
    (pointList e ft r).length = r := by
  simp [pointList]

theorem pointList_getD (e : Envelope) (ft : Int) (r : Nat) (i : Nat) (h : i < r) :
    (pointList e ft r).getD i 0 =
      if deadAt e (ft + i) then 0 else sampleVal e (ft + i) := by
  rw [List.getD_eq_getElem _ _ (by simp [pointList_length, h])]
  simp [pointList]

theorem pointList_add (e : Envelope) (ft : Int) (a b : Nat) :
    pointList e ft (a + b) = pointList e ft a ++ pointList e (ft + a) b := by
  unfold pointList
  rw [List.range_add, List.map_append, List.map_map]
  congr 1
  apply List.map_congr_left
  intro i _
  have harg : ft + ((a + i : Nat) : Int) = ft + a + (i : Int) := by push_cast; ring
  simp only [Function.comp]
  rw [harg]

theorem pointList_dead (e : Envelope) (ft : Int) (r : Nat) (hd : deadAt e ft) :
    pointList e ft r = List.replicate r 0 := by
  unfold pointList
  have h : ∀ i ∈ List.range r, (if deadAt e (ft + i) then (0:Rat) else sampleVal e (ft + i)) = 0 := by
    intro i _
    rw [if_pos (deadAt_mono e ft (ft + i) hd (by omega))]
  rw [List.map_congr_left h]
  simp [List.map_const]

theorem pointList_of_chunk (e : Envelope) (ft : Int) (c : List Rat)
    (hpt : ∀ i : Nat, i < c.length →
      ¬ deadAt e (ft + i) ∧ c.getD i 0 = sampleVal e (ft + i)) :
    pointList e ft c.length = c := by
  apply List.ext_getElem
  · simp [pointList_length]
  · intro i h1 h2
    obtain ⟨hd, hv⟩ := hpt i h2
    have := pointList_getD e ft c.length i h2
    rw [if_neg hd] at this
    rw [← List.getD_eq_getElem (pointList e ft c.length) 0 h1, this,
      ← hv, List.getD_eq_getElem c 0 h2]

/-- Pointwise characterization of the generate loop on well-formed
envelopes: with data already seen, or with the envelope not yet dead at the
window start, the loop assembles exactly the pointwise amplitude window. -/
theorem genLoop_pointwise (e : Envelope) :
    ∀ (fuel r : Nat) (ft : Int) (hd : Bool), r ≤ fuel → EnvOK e ft →
      (¬ deadAt e ft ∨ hd = true) →
      genLoop e fuel ft r hd = .out (pointList e ft r) := by
  intro fuel
  induction fuel with
  | zero =>
      intro r ft hd hr _ _
      have : r = 0 := by omega
      subst this
      simp [genLoop, pointList]
  | succ f ih =>
      intro r ft hd hr hok hcase
      match r with
      | 0 => simp [genLoop, pointList]
      | r + 1 =>
          rw [genLoop]
          by_cases hdead : deadAt e ft
          · have hhd : hd = true := by
              rcases hcase with hc | hc
              · exact absurd hdead hc
              · exact hc
            rw [(get_chunk_none_iff e ft (r + 1 : Int) hok).mpr hdead]
            rw [hhd, if_pos rfl, pointList_dead e ft (r + 1) hdead]
          · obtain ⟨c, hc, hc1, hc2, hc3⟩ :=
              get_chunk_pointwise e ft (r + 1 : Int) hok (by omega) hdead
            have hne : ¬ (c.length = 0) := by omega
            have hcl : c.length ≤ r + 1 := by omega
            have hrec := ih (r + 1 - c.length) (ft + c.length) true (by omega)
              (EnvOK_mono e ft c.length hok (by omega)) (Or.inr rfl)
            simp only [hc]
            rw [if_neg hne, hrec]
            show GenOut.out (c ++ pointList e (ft + c.length) (r + 1 - c.length)) = _
            have hsplit : pointList e ft (r + 1) =
                pointList e ft c.length ++ pointList e (ft + c.length) (r + 1 - c.length) := by
              rw [← pointList_add]
              congr 1
              omega
            rw [hsplit, pointList_of_chunk e ft c hc3]

/-- `Envelope.generate` on a not-yet-dead well-formed envelope returns
exactly the pointwise amplitude window. -/
theorem generate_pointwise (e : Envelope) (ft : Int) (n : Nat) (hok : EnvOK e ft)
    (halive : ¬ deadAt e ft) :
    e.generate ft n = .out (pointList e ft n) :=
  genLoop_pointwise e n n ft false (le_refl n) hok (Or.inl halive)

/-- `Envelope.generate` on a dead envelope returns the silence indicator
(for a nonempty window). -/
theorem generate_dead (e : Envelope) (ft : Int) (n : Nat) (hok : EnvOK e ft)
    (hdead : deadAt e ft) (hn : 1 ≤ n) : e.generate ft n = GenOut.silence := by
  match n, hn with
  | n + 1, _ =>
      show genLoop e (n + 1) ft (n + 1) false = GenOut.silence
      rw [genLoop, (get_chunk_none_iff e ft (n + 1 : Int) hok).mpr hdead]
      rfl

theorem simple_synth_append (f : Rat → Rat) (r : Int) (fr : Rat) :
    ∀ (a1 : List Rat) (e1 : List Rat) (phase : Rat) (a2 e2 : List Rat),
      a1.length = e1.length →
      simple_synth f r fr phase (a1 ++ a2) (e1 ++ e2) =
        ((simple_synth f r fr (simple_synth f r fr phase a1 e1).1 a2 e2).1,
         (simple_synth f r fr phase a1 e1).2 ++
           (simple_synth f r fr (simple_synth f r fr phase a1 e1).1 a2 e2).2) := by
  intro a1
  induction a1 with
  | nil =>
      intro e1 phase a2 e2 h
      have : e1 = [] := List.length_eq_zero.mp (by simp at h; omega)
      subst this
      simp [simple_synth]
  | cons a t ih =>
      intro e1 phase a2 e2 h
      match e1 with
      | [] => simp at h
      | eh :: et =>
          have hlen : t.length = et.length := by simp at h; omega
          show simple_synth f r fr phase (a :: (t ++ a2)) (eh :: (et ++ e2)) = _
          rw [simple_synth]
          rw [ih et (phase + fr / r) a2 e2 hlen]
          simp [simple_synth]

theorem simple_synth_zero_env (f : Rat → Rat) (r : Int) (fr : Rat) :
    ∀ (a : List Rat) (phase : Rat),
      (simple_synth f r fr phase a (List.replicate a.length 0)).2 = a := by
  intro a
  induction a with
  | nil => intro phase; rfl
  | cons x t ih =>
      intro phase
      show (simple_synth f r fr phase (x :: t) (0 :: List.replicate t.length 0)).2 = x :: t
      rw [simple_synth]
      simp [ih]

theorem note_eta_events (n : Note) (h : n.next_events = []) :
    ({ n with next_events := [] } : Note) = n := by
  cases n
  simp_all

theorem get_freq_phase_irrel (exp2F : Rat → Rat) (n : Note) (x : Rat) :
    get_freq exp2F { n with phase := x } = get_freq exp2F n := rfl

theorem note_generate_no_events (sinFn exp2F : Rat → Rat) (note : Note) (ft : Int)
    (arr : List Rat) (hev : note.next_events = []) :
    note_generate sinFn exp2F note ft arr =
      match note.envelope with
      | Option.none => some (note, arr, false)
      | some _ =>
          (note_synth sinFn exp2F note ft arr).map
            fun q => ({ note with phase := q.1 }, q.2, true) := by
  unfold note_generate get_events
  rw [hev]
  simp only [get_events_aux]
  rw [note_eta_events note hev]
  rw [if_pos ⟨trivial, trivial⟩, ← hev]

theorem note_synth_dead (sinFn exp2F : Rat → Rat) (note : Note) (ft : Int)
    (arr : List Rat) (env : Envelope) (he : note.envelope = some env)
    (hok : EnvOK env ft) (hdead : deadAt env ft) :
    note_synth sinFn exp2F note ft arr = some (note.phase, arr) := by
  unfold note_synth
  rw [he]
  show (match env.generate ft arr.length with
    | GenOut.silence => some (note.phase, arr)
    | GenOut.diverge => Option.none
    | GenOut.out envChunk =>
        some (simple_synth sinFn note.out_samplerate (get_freq exp2F note)
          note.phase arr envChunk)) = some (note.phase, arr)
  match arr with
  | [] =>
      rw [show env.generate ft ([] : List Rat).length = GenOut.out [] from rfl]
      simp [simple_synth]
  | x :: t =>
      rw [generate_dead env ft (x :: t).length hok hdead (by simp)]

theorem note_eta_phase (n : Note) : ({ n with phase := n.phase } : Note) = n := by
  cases n
  rfl

theorem note_synth_alive (sinFn exp2F : Rat → Rat) (note : Note) (ft : Int)
    (arr : List Rat) (env : Envelope) (he : note.envelope = some env)
    (hok : EnvOK env ft) (halive : ¬ deadAt env ft) :
    note_synth sinFn exp2F note ft arr =
      some (simple_synth sinFn note.out_samplerate (get_freq exp2F note) note.phase arr
        (pointList env ft arr.length)) := by
  unfold note_synth
  rw [he]
  show (match env.generate ft arr.length with
    | GenOut.silence => some (note.phase, arr)
    | GenOut.diverge => Option.none
    | GenOut.out envChunk =>
        some (simple_synth sinFn note.out_samplerate (get_freq exp2F note)
          note.phase arr envChunk)) = _
  rw [generate_pointwise env ft arr.length hok halive]

/-- C4 amended (streaming split idempotence on the event-free path): for
every Note state with an empty pending-event queue (and a well-formed
envelope: non-negative release offset, started at or before the window),
every `frame_time`, every split `n, m ≥ 0` of a buffer, and every sine/exp2
interpretation, `generate(frame_time, n)` followed by
`generate(frame_time+n, m)` mixes exactly the same output samples as a
single `generate(frame_time, n+m)` call from the same initial state.  (With
pending events the property fails: see the counterexample, where an
envelope that dies before the split point desynchronizes the sine phase
accumulator across a retrigger.) -/
theorem note_generate_split_no_events (sinFn exp2F : Rat → Rat) (note : Note) (ft : Int)
    (n m : Nat) (arr : List Rat) (hlen : arr.length = n + m)
    (hev : note.next_events = [])
    (henv : ∀ env, note.envelope = some env → EnvOK env ft) :
    ∃ q1 q2 q3 : Note × List Rat × Bool,
      note_generate sinFn exp2F note ft (arr.take n) = some q1 ∧
      note_generate sinFn exp2F q1.1 (ft + (n : Int)) (arr.drop n) = some q2 ∧
      note_generate sinFn exp2F note ft arr = some q3 ∧
      q1.2.1 ++ q2.2.1 = q3.2.1 := by
  have htake : (arr.take n).length = n := by
    rw [List.length_take, hlen]
    omega
  have hdrop : (arr.drop n).length = m := by
    rw [List.length_drop, hlen]
    omega
  cases he : note.envelope with
  | none =>
      refine ⟨(note, arr.take n, false), (note, arr.drop n, false), (note, arr, false),
        ?_, ?_, ?_, List.take_append_drop n arr⟩
      · rw [note_generate_no_events _ _ _ _ _ hev, he]
      · rw [note_generate_no_events _ _ _ _ _ hev, he]
      · rw [note_generate_no_events _ _ _ _ _ hev, he]
  | some env =>
      have hok := henv env he
      have hokn : EnvOK env (ft + (n : Int)) := EnvOK_mono env ft n hok (by omega)
      by_cases hdead : deadAt env ft
      · have hdeadn : deadAt env (ft + (n : Int)) := deadAt_mono env ft _ hdead (by omega)
        refine ⟨(note, arr.take n, true), (note, arr.drop n, true), (note, arr, true),
          ?_, ?_, ?_, List.take_append_drop n arr⟩
        · rw [note_generate_no_events _ _ _ _ _ hev, he,
            note_synth_dead sinFn exp2F note ft (arr.take n) env he hok hdead]
          simp [note_eta_phase, ← he]
        · rw [note_generate_no_events _ _ _ _ _ hev, he,
            note_synth_dead sinFn exp2F note _ (arr.drop n) env he hokn hdeadn]
          simp [note_eta_phase, ← he]
        · rw [note_generate_no_events _ _ _ _ _ hev, he,
            note_synth_dead sinFn exp2F note ft arr env he hok hdead]
          simp [note_eta_phase, ← he]
      · -- alive at the window start
        set rate := note.out_samplerate with hrate
        set freq := get_freq exp2F note with hfreq
        set p1 := simple_synth sinFn rate freq note.phase (arr.take n) (pointList env ft n)
          with hp1
        set p2 := simple_synth sinFn rate freq p1.1 (arr.drop n) (pointList env (ft + n) m)
          with hp2
        have hcall1 : note_generate sinFn exp2F note ft (arr.take n) =
            some ({ note with phase := p1.1 }, p1.2, true) := by
          rw [note_generate_no_events _ _ _ _ _ hev, he,
            note_synth_alive sinFn exp2F note ft (arr.take n) env he hok hdead, htake]
          rfl
        have hnote1ev : ({ note with phase := p1.1 } : Note).next_events = [] := hev
        have hnote1env : ({ note with phase := p1.1 } : Note).envelope = some env := he
        have hcomb : note_generate sinFn exp2F note ft arr =
            some ({ note with phase := (simple_synth sinFn rate freq note.phase arr
              (pointList env ft arr.length)).1 },
              (simple_synth sinFn rate freq note.phase arr (pointList env ft arr.length)).2,
              true) := by
          rw [note_generate_no_events _ _ _ _ _ hev, he,
            note_synth_alive sinFn exp2F note ft arr env he hok hdead]
          rfl
        have harr : arr = arr.take n ++ arr.drop n := (List.take_append_drop n arr).symm
        have hLL : pointList env ft arr.length =
            pointList env ft n ++ pointList env (ft + n) m := by
          rw [hlen, pointList_add]
        have hsum : simple_synth sinFn rate freq note.phase arr (pointList env ft arr.length) =
            (p2.1, p1.2 ++ p2.2) := by
          conv_lhs => rw [hLL, harr]
          rw [simple_synth_append sinFn rate freq (arr.take n) (pointList env ft n)
            note.phase (arr.drop n) (pointList env (ft + n) m)
            (by rw [htake, pointList_length])]
        by_cases hdeadn : deadAt env (ft + (n : Int))
        · -- the envelope dies before the split point: the second window is
          -- pure padding in the combined call and skipped in the split call
          have hcall2 : note_generate sinFn exp2F ({ note with phase := p1.1 }) (ft + (n : Int))
              (arr.drop n) = some ({ note with phase := p1.1 }, arr.drop n, true) := by
            rw [note_generate_no_events _ _ _ _ _ hnote1ev]
            rw [note_synth_dead sinFn exp2F _ _ (arr.drop n) env hnote1env hokn hdeadn]
            rw [he]
            rfl
          have hzero : pointList env (ft + n) m = List.replicate (arr.drop n).length 0 := by
            rw [pointList_dead env _ _ hdeadn, hdrop]
          refine ⟨({ note with phase := p1.1 }, p1.2, true),
            ({ note with phase := p1.1 }, arr.drop n, true), _,
            hcall1, hcall2, hcomb, ?_⟩
          show p1.2 ++ arr.drop n = (simple_synth sinFn rate freq note.phase arr
            (pointList env ft arr.length)).2
          rw [hsum]
          show p1.2 ++ arr.drop n = p1.2 ++ p2.2
          congr 1
          rw [hp2, hzero, simple_synth_zero_env]
        · have hcall2 : note_generate sinFn exp2F ({ note with phase := p1.1 }) (ft + (n : Int))
              (arr.drop n) = some ({ note with phase := p2.1 }, p2.2, true) := by
            rw [note_generate_no_events _ _ _ _ _ hnote1ev]
            rw [note_synth_alive sinFn exp2F _ _ (arr.drop n) env hnote1env hokn hdeadn, hdrop]
            rw [he]
            rfl
          refine ⟨({ note with phase := p1.1 }, p1.2, true),
            ({ note with phase := p2.1 }, p2.2, true), _,
            hcall1, hcall2, hcomb, ?_⟩
          show p1.2 ++ p2.2 = (simple_synth sinFn rate freq note.phase arr
            (pointList env ft arr.length)).2
          rw [hsum]

/-- Witness for `note_generate_split_no_events` at the concrete event-free
fixture `noteDead`, frame 6, buffer of 4 zeros split as 2 + 2. -/
theorem note_generate_split_witness :
    (List.replicate 4 (0:Rat)).length = 2 + 2 ∧
    noteDead.next_events = [] ∧
    (∀ env, noteDead.envelope = some env → EnvOK env 6) ∧
    ∃ q1 q2 q3 : Note × List Rat × Bool,
      note_generate id id noteDead 6 ((List.replicate 4 (0:Rat)).take 2) = some q1 ∧
      note_generate id id q1.1 (6 + ((2:Nat) : Int)) ((List.replicate 4 (0:Rat)).drop 2) =
        some q2 ∧
      note_generate id id noteDead 6 (List.replicate 4 (0:Rat)) = some q3 ∧
      q1.2.1 ++ q2.2.1 = q3.2.1 := by
  have henv : ∀ env, noteDead.envelope = some env → EnvOK env 6 := by
    intro env h
    rw [show noteDead.envelope = some (envS.release 3) from rfl] at h
    cases h
    constructor
    · rw [envR_release_start]
      norm_num
    · show envS.start_frame ≤ 6
      rw [show envS.start_frame = 0 from rfl]
      norm_num
  exact ⟨rfl, rfl, henv,
    note_generate_split_no_events id id noteDead 6 2 2 (List.replicate 4 0) rfl rfl henv⟩

/-- C4 counterexample fixture: `envS` released at frame 1 — its 2-frame
release curve `[9/10, 0]` ends at frame 3, after which the envelope is
dead. -/
def envC : Envelope := envS.release 1

/-- C4 counterexample fixture: a note holding the dying envelope `envC` and
one pending retrigger (`note_on` at frame 4, velocity 127). -/
def noteC : Note :=
  { noteS with envelope := some envC, next_events := [MidiMsg.note_on 4 127] }

/-- C4 counterexample fixture: the envelope created by the retrigger at
frame 4 (start level 0, full velocity). -/
def envN : Envelope := mkEnvelope shapeS 4 10 0 (((127 : Int) : Rat) / 127)

theorem envC_release_start : envC.release_start = 1 := by
  show (1 : Int) - envS.start_frame = 1
  rw [show envS.start_frame = 0 from rfl]
  norm_num

theorem envC_tail : envC.tail = [9/10, 0] := by
  show linspace (if (1 : Int) - envS.start_frame < (envS.head.length : Int)
      then pyGet envS.head (1 - envS.start_frame)
      else envS.shape.sustain_level * envS.velocity) 0 envS.release_frames.toNat = [9/10, 0]
  rw [envS_head_length, show envS.start_frame = 0 from rfl, envS_release_frames]
  rw [if_neg (by norm_num)]
  rw [show envS.shape.sustain_level * envS.velocity = 9/10 from by
    show shapeS.sustain_level * 1 = 9/10
    norm_num [shapeS]]
  show List.map (fun i : Nat => 9/10 + (0 - 9/10) / ((0:Nat) + 1 : Rat) * (i : Rat))
    (List.range 2) = [9/10, 0]
  norm_num [List.range_succ]

theorem envC_head : envC.head = [0] := envS_head

theorem envC_chunk_2 (fr : Int) (h1 : 1 ≤ fr) (h2 : fr ≤ 2) :
    envC.get_chunk 2 fr = some [0] := by
  have := get_chunk_release envC 2 fr (by rw [envC_release_start]; norm_num)
    (by rw [envC_release_start, show envC.start_frame = 0 from rfl]; norm_num)
    (by rw [envC_release_start, show envC.start_frame = 0 from rfl, envC_tail]; norm_num)
  rw [this, show envC.start_frame = 0 from rfl, envC_release_start, envC_tail]
  interval_cases fr <;> norm_num [pySlice, pyIdx] <;> decide

theorem envC_chunk_dead (t fr : Int) (h : 3 ≤ t) :
    envC.get_chunk t fr = Option.none := by
  apply get_chunk_dead envC t fr (by rw [envC_release_start]; norm_num)
  rw [envC_release_start, envC_tail, show envC.start_frame = 0 from rfl]
  show 1 + (([(9:Rat)/10, 0].length : Nat) : Int) ≤ t - 0
  norm_num
  omega

theorem envC_gen_2_2 : envC.generate 2 2 = GenOut.out [0, 0] := by
  show genLoop envC 2 2 2 false = GenOut.out [0, 0]
  rw [show (2 : Nat) = 1 + 1 from rfl, genLoop]
  rw [show ((1 : Nat) + 1 : Int) = 2 from rfl]
  rw [envC_chunk_2 2 (by norm_num) (by norm_num)]
  norm_num [genLoop, envC_chunk_dead 3 1 (by norm_num)]

theorem envC_gen_2_1 : envC.generate 2 1 = GenOut.out [0] := by
  apply generate_one
  exact envC_chunk_2 1 (by norm_num) (by norm_num)

theorem envC_deadAt (t : Int) (h : 3 ≤ t) : deadAt envC t := by
  refine ⟨by rw [envC_release_start]; norm_num, ?_⟩
  rw [envC_release_start, envC_tail, show envC.start_frame = 0 from rfl]
  show 1 + (([(9:Rat)/10, 0].length : Nat) : Int) ≤ t - 0
  norm_num
  omega

theorem envC_EnvOK (t : Int) (h : 0 ≤ t) : EnvOK envC t := by
  refine ⟨by rw [envC_release_start]; norm_num, ?_⟩
  rw [show envC.start_frame = 0 from rfl]
  omega

theorem envC_gen_dead (t : Int) (n : Nat) (h : 3 ≤ t) (hn : 1 ≤ n) :
    envC.generate t n = GenOut.silence := by
  have hok : EnvOK envC t := envC_EnvOK t (by omega)
  exact generate_dead envC t n hok (envC_deadAt t h) hn

theorem envN_head : envN.head = [0] := by
  show (linspace (0 * (((127 : Int) : Rat) / 127)) (shapeS.attack_level * (((127 : Int) : Rat) / 127))
      (pyRound (shapeS.attack_time * ((10 : Int) : Rat))).toNat ++
    linspace (shapeS.attack_level * (((127 : Int) : Rat) / 127))
      (shapeS.sustain_level * (((127 : Int) : Rat) / 127))
      (pyRound (shapeS.decay_time * ((10 : Int) : Rat))).toNat) = [0]
  rw [shapeS_attack_round, shapeS_decay_round]
  simp [linspace]

theorem envN_chunk_4_2 : envN.get_chunk 4 2 = some [0] := by
  have := get_chunk_attack_rs0 envN 4 2 rfl
    (by rw [show envN.start_frame = (4 : Int) from rfl, envN_head]; norm_num)
  rw [this, show envN.start_frame = (4 : Int) from rfl, envN_head]
  norm_num [pySlice, pyIdx]

theorem envN_chunk_5_1 : envN.get_chunk 5 1 = some [9/10] := by
  have := get_chunk_sustain_rs0 envN 5 1 rfl
    (by rw [show envN.start_frame = (4 : Int) from rfl, envN_head]; norm_num)
  rw [this]
  have hsv : envN.shape.sustain_level * envN.velocity = 9/10 := by
    show shapeS.sustain_level * (((127 : Int) : Rat) / 127) = 9/10
    norm_num [shapeS]
  rw [hsv]
  rfl

theorem envN_gen_4_2 : envN.generate 4 2 = GenOut.out [0, 9/10] := by
  show genLoop envN 2 4 2 false = GenOut.out [0, 9/10]
  rw [show (2 : Nat) = 1 + 1 from rfl, genLoop]
  rw [show ((1 : Nat) + 1 : Int) = 2 from rfl]
  rw [envN_chunk_4_2]
  norm_num [genLoop, envN_chunk_5_1]

theorem noteC_next : noteC.next_events = [MidiMsg.note_on 4 127] := rfl

theorem noteC_env : noteC.envelope = some envC := rfl

theorem get_freq_one (n : Note) : get_freq (fun _ => (1 : Rat)) n = 440 := by
  simp [get_freq]

/-- The note state left by the first split call: only the phase accumulator
has advanced (by one sample's 44 cycles). -/
def noteC1 : Note := { noteC with phase := 44 }

theorem noteC_call1 :
    note_generate id (fun _ => (1 : Rat)) noteC 2 [0] = some (noteC1, [0], true) := by
  have hev : get_events noteC 2 (([(0 : Rat)].length : Nat) : Int) = ([], noteC) := rfl
  simp only [note_generate, hev, noteC_next]
  rw [if_neg (by simp)]
  simp only [note_generate_loop]
  rw [if_pos (by norm_num)]
  simp only [pyIdx, note_synth, noteC_env]
  norm_num
  rw [envC_gen_2_1]
  simp only [simple_synth, get_freq_one]
  refine ⟨44, ?_, rfl⟩
  have h1 : noteC.phase + 440 / ((noteC.out_samplerate : Int) : Rat) = 44 := by
    norm_num [show noteC.phase = 0 from rfl, show noteC.out_samplerate = (10 : Int) from rfl]
  rw [h1]
  norm_num

/-- The note state left by the second split call: the retrigger has installed
the fresh envelope `envN` and the phase has advanced by two samples from 44. -/
def noteC2 : Note :=
  { noteC with next_events := [], envelope := some envN, phase := 132 }

theorem noteC_call2 :
    note_generate id (fun _ => (1 : Rat)) noteC1 3 [0, 0, 0] =
      some (noteC2, [0, 0, 594/5], true) := by
  have hev : get_events noteC1 3 (([(0 : Rat), 0, 0].length : Nat) : Int) =
      ([MidiMsg.note_on 4 127], { noteC1 with next_events := [] }) := rfl
  have hgen3 : envC.generate 3 1 = GenOut.silence :=
    envC_gen_dead 3 1 (by norm_num) (by norm_num)
  have hgen4 : envC.generate 4 1 = GenOut.silence :=
    envC_gen_dead 4 1 (by norm_num) (by norm_num)
  have he1 : noteC1.envelope = some envC := rfl
  have hp1 : noteC1.phase = 44 := rfl
  have hr1 : noteC1.out_samplerate = (10 : Int) := rfl
  have hs1 : noteC1.envelope_shape = shapeS := rfl
  simp only [note_generate]
  rw [hev]
  rw [if_neg (by simp)]
  norm_num [note_generate_loop, MidiMsg.time, pyIdx, note_synth,
    note_process_event, simple_synth, get_freq_one, hgen3, hgen4,
    he1, hp1, hr1, hs1, envN, envN_gen_4_2]
  have hv : mkEnvelope shapeS 4 10 0 1 = envN := by
    rw [envN, show ((127 : Int) : Rat) / 127 = 1 from by norm_num]
  refine ⟨132, ?_, ?_⟩
  · rw [hv, envN_gen_4_2]
    norm_num [simple_synth]
  · rw [hv]
    rfl

/-- The note state left by the unsplit call: same retriggered envelope, but
the phase has advanced through all four samples (4 * 44 cycles). -/
def noteCF : Note :=
  { noteC with next_events := [], envelope := some envN, phase := 176 }

theorem noteC_comb :
    note_generate id (fun _ => (1 : Rat)) noteC 2 [0, 0, 0, 0] =
      some (noteCF, [0, 0, 0, 792/5], true) := by
  have hev : get_events noteC 2 (([(0 : Rat), 0, 0, 0].length : Nat) : Int) =
      ([MidiMsg.note_on 4 127], { noteC with next_events := [] }) := rfl
  have hgen4 : envC.generate 4 1 = GenOut.silence :=
    envC_gen_dead 4 1 (by norm_num) (by norm_num)
  have he0 : noteC.envelope = some envC := rfl
  have hp0 : noteC.phase = 0 := rfl
  have hr0 : noteC.out_samplerate = (10 : Int) := rfl
  have hs0 : noteC.envelope_shape = shapeS := rfl
  simp only [note_generate]
  rw [hev]
  rw [if_neg (by simp)]
  norm_num [note_generate_loop, MidiMsg.time, pyIdx, note_synth,
    note_process_event, simple_synth, get_freq_one, envC_gen_2_2, hgen4,
    he0, hp0, hr0, hs0, show (2 : Int).toNat = 2 from rfl]
  have hv : mkEnvelope shapeS 4 10 0 1 = envN := by
    rw [envN, show ((127 : Int) : Rat) / 127 = 1 from by norm_num]
  refine ⟨176, ?_, ?_⟩
  · rw [hv, envN_gen_4_2]
    norm_num [simple_synth]
  · rw [hv]
    rfl

/-- C4 counterexample (claim as stated is false): from the state `noteC` - a
note whose envelope was released at frame 1 (dead from frame 3) with a
pending `note_on` retrigger at frame 4 - at `frame_time = 2` with a 4-sample
buffer of zeros split as 1 + 3, the split calls produce
`[0] ++ [0, 0, 594/5]` while the single call produces `[0, 0, 0, 792/5]`:
the unsplit call advances the sine phase through the silent padding while
the split second call skips synthesis over the dead window, so the samples
after the retrigger differ. -/
theorem note_generate_split_counterexample :
    note_generate id (fun _ => (1 : Rat)) noteC 2 ([(0 : Rat), 0, 0, 0].take 1) =
        some (noteC1, [0], true) ∧
      note_generate id (fun _ => (1 : Rat)) noteC1 (2 + ((1 : Nat) : Int))
          ([(0 : Rat), 0, 0, 0].drop 1) = some (noteC2, [0, 0, 594/5], true) ∧
      note_generate id (fun _ => (1 : Rat)) noteC 2 [(0 : Rat), 0, 0, 0] =
        some (noteCF, [0, 0, 0, 792/5], true) ∧
      [(0 : Rat)] ++ [0, 0, 594/5] ≠ [0, 0, 0, 792/5] := by
  refine ⟨noteC_call1, ?_, noteC_comb, by norm_num⟩
  show note_generate id (fun _ => (1 : Rat)) noteC1 (2 + ((1 : Nat) : Int)) [0, 0, 0] = _
  norm_num
  exact noteC_call2

end Midisynth
